import Mathlib

/-!
Verification of the xpath-to-json extraction core (src/main.rs) against its
specification.

The development shallowly embeds the Rust program:

* `Json` mirrors `serde_json::Value`.  Objects are insertion-ordered
  association lists, mirroring a `serde_json::Map` with order preserved
  (the spec describes `RawDataStore` as an insertion-ordered mapping;
  the feature flag choosing the map representation lives in the crate
  manifest, which is not among the given sources, so the map model is
  taken from the spec's words).
* The `scraper` crate (an external collaborator: the parsed document
  tree, opaque to the core) is modelled by `Element`/`HtmlDoc`:
  a document maps a CSS-selector string to the list of matching
  elements in document order, and answers whether a selector string
  parses; an element carries its concatenated descendant text, its
  attributes, its serialized HTML and its own scoped selections.
* The ambient clock (`chrono::Utc::now()`) is modelled by `Clock`,
  a record of the four strings the program renders from it.
* Rust string primitives are re-implemented over `List Char` so that
  every definition evaluates by kernel reduction; they follow the
  semantics of the `str` methods used by the source (`trim`,
  `replace`, `contains`, `starts_with`, `ends_with`, `split_once`,
  `split_whitespace`, `parse::<usize>`).
* Recursive procedures take an explicit `fuel : Nat`; fuel bounds
  recursion depth only (every recursive call passes `fuel - 1`), so
  any `fuel > sizeOf argument` behaves as the Rust recursion does.
-/

/-! ## String primitives (re-implemented structurally) -/

/-- The characters of a string. -/
def chars (s : String) : List Char := s.data

/-- A string from its characters. -/
def ofChars (cs : List Char) : String := ⟨cs⟩

/-- `dropLit pat cs` removes the literal `pat` from the front of `cs`. -/
def dropLit : List Char → List Char → Option (List Char)
  | [], cs => some cs
  | _, [] => none
  | p :: ps, c :: cs => if p = c then dropLit ps cs else none

/-- Does `cs` start with the literal `pat`? -/
def startsWithL (pat cs : List Char) : Bool := (dropLit pat cs).isSome

/-- Does `cs` contain `pat` as a contiguous sublist? -/
def containsL : List Char → List Char → Bool
  | [], pat => pat.isEmpty
  | cs@(_ :: rest), pat => startsWithL pat cs || containsL rest pat

/-- Rust `str::contains` for a nonempty literal pattern. -/
def sContains (s pat : String) : Bool := containsL (chars s) (chars pat)

/-- Rust `str::starts_with`. -/
def sStartsWith (s pat : String) : Bool := startsWithL (chars pat) (chars s)

/-- Rust `str::ends_with`. -/
def sEndsWith (s pat : String) : Bool :=
  startsWithL (chars pat).reverse (chars s).reverse

/-- Rust `str::trim` (whitespace from both ends). -/
def sTrim (s : String) : String :=
  ofChars (((chars s).dropWhile Char.isWhitespace).reverse.dropWhile
    Char.isWhitespace).reverse

/-- One step of replace-all: replace at most the leftmost occurrence,
returning the part before the patch, the replacement, and the rest. -/
def replaceL (fuel : Nat) (cs pat rep : List Char) : List Char :=
  match fuel, cs with
  | 0, cs => cs
  | _ + 1, [] => []
  | fuel + 1, c :: cs' =>
    match dropLit pat (c :: cs') with
    | some rest => rep ++ replaceL fuel rest pat rep
    | none => c :: replaceL fuel cs' pat rep

/-- Rust `str::replace`: every non-overlapping occurrence, left to right. -/
def sReplace (s pat rep : String) : String :=
  ofChars (replaceL (chars s).length (chars s) (chars pat) (chars rep))

/-- Drop the first `n` characters (Rust byte slicing on ASCII input). -/
def sDrop (s : String) (n : Nat) : String := ofChars ((chars s).drop n)

/-- Drop the last `n` characters. -/
def sDropRight (s : String) (n : Nat) : String :=
  ofChars ((chars s).reverse.drop n).reverse

/-- Number of characters (Rust `len()` on ASCII input). -/
def sLength (s : String) : Nat := (chars s).length

/-- Helper for `sSplitOnce`: text before the first occurrence of `pat`
and the remainder after it. -/
def splitOnceL (fuel : Nat) (cs pat : List Char) : Option (List Char × List Char) :=
  match fuel, cs with
  | 0, _ => none
  | _ + 1, [] => none
  | fuel + 1, c :: cs' =>
    match dropLit pat (c :: cs') with
    | some rest => some ([], rest)
    | none =>
      match splitOnceL fuel cs' pat with
      | some (l, r) => some (c :: l, r)
      | none => none

/-- Rust `str::split_once`. -/
def sSplitOnce (s pat : String) : Option (String × String) :=
  match splitOnceL (chars s).length (chars s) (chars pat) with
  | some (l, r) => some (ofChars l, ofChars r)
  | none => none

/-- Maximal run of non-whitespace characters at the front. -/
def takeNonWs : List Char → List Char × List Char
  | [] => ([], [])
  | c :: cs =>
    if c.isWhitespace then ([], c :: cs)
    else
      let (w, rest) := takeNonWs cs
      (c :: w, rest)

/-- Maximal non-whitespace runs, in order. -/
def splitWsL (fuel : Nat) (cs : List Char) : List String :=
  match fuel, cs with
  | 0, _ => []
  | _ + 1, [] => []
  | fuel + 1, c :: cs' =>
    if c.isWhitespace then splitWsL fuel cs'
    else
      let (w, rest) := takeNonWs (c :: cs')
      ofChars w :: splitWsL fuel rest

/-- Rust `str::split_whitespace` (nonempty tokens only). -/
def sSplitWs (s : String) : List String := splitWsL (chars s).length (chars s)

/-- Is `c` a decimal digit? -/
def isDigitC (c : Char) : Bool := '0' ≤ c && c ≤ '9'

/-- Parse a nonempty all-digit run as a `Nat`. -/
def digitsToNat : List Char → Option Nat
  | [] => none
  | cs =>
    if cs.all isDigitC then
      some (cs.foldl (fun n c => n * 10 + (c.toNat - '0'.toNat)) 0)
    else none

/-- Rust `str::parse::<usize>`: optional leading `+`, then digits.
(The model ignores `usize` overflow, which no rule configuration reaches.) -/
def parseUsize (s : String) : Option Nat :=
  match chars s with
  | '+' :: rest => digitsToNat rest
  | cs => digitsToNat cs

/-- Word characters, the `\w` class of the source's regexes. -/
def isWordChar (c : Char) : Bool :=
  ('a' ≤ c && c ≤ 'z') || ('A' ≤ c && c ≤ 'Z') || isDigitC c || c = '_'

/-- Maximal run of word characters at the front. -/
def takeWord : List Char → List Char × List Char
  | [] => ([], [])
  | c :: cs =>
    if isWordChar c then
      let (w, rest) := takeWord cs
      (c :: w, rest)
    else ([], c :: cs)

/-- Characters before the next `stop` (`none` when `stop` is absent). -/
def takeUntil (stop : Char) : List Char → Option (List Char × List Char)
  | [] => none
  | c :: cs =>
    if c = stop then some ([], cs)
    else
      match takeUntil stop cs with
      | some (l, r) => some (c :: l, r)
      | none => none

/-! ## Models of the source's regular-expression rewrites

Each `scan…` walks the text left to right, replacing non-overlapping
matches exactly as `regex::Regex::replace_all` does for the concrete
pattern named in the comment. -/

/-- `value.replace(" ", ".")` applied to a class list. -/
def spacesToDots (v : List Char) : List Char :=
  v.map (fun c => if c = ' ' then '.' else c)

/-- Shared tail of both `contains` patterns: `' ([^']+) '\)` — a chunk up
to the next quote that ends in a space, with `)` after the quote.
Returns the captured value and the rest after the match. -/
def matchQuotedValue (cs : List Char) : Option (List Char × List Char) :=
  match takeUntil '\'' cs with
  | none => none
  | some (chunk, afterQuote) =>
    match afterQuote with
    | ')' :: rest =>
      if chunk.getLast? = some ' ' ∧ 2 ≤ chunk.length then
        some (chunk.dropLast, rest)
      else none
    | _ => none

/-- A match of `contains\(concat\(' ', @(\w+), ' '\), ' ([^']+) '\)`
at the front of `cs`, with its source replacement. -/
def tryConcatContains (cs : List Char) : Option (List Char × List Char) :=
  match dropLit (chars "contains(concat(' ', @") cs with
  | none => none
  | some rest =>
    let (w, rest2) := takeWord rest
    if w.isEmpty then none
    else
      match dropLit (chars ", ' '), ' ") rest2 with
      | none => none
      | some rest3 =>
        match matchQuotedValue rest3 with
        | none => none
        | some (v, rest4) =>
          if w = chars "class" then some ('.' :: spacesToDots v, rest4)
          else some (('[' :: w) ++ chars "*=\"" ++ v ++ chars "\"]", rest4)

/-- A match of `contains\(@(\w+), ' ([^']+) '\)` at the front of `cs`. -/
def tryAttrContains (cs : List Char) : Option (List Char × List Char) :=
  match dropLit (chars "contains(@") cs with
  | none => none
  | some rest =>
    let (w, rest2) := takeWord rest
    if w.isEmpty then none
    else
      match dropLit (chars ", ' ") rest2 with
      | none => none
      | some rest3 =>
        match matchQuotedValue rest3 with
        | none => none
        | some (v, rest4) =>
          if w = chars "class" then some ('.' :: spacesToDots v, rest4)
          else some (('[' :: w) ++ chars "*=\"" ++ v ++ chars "\"]", rest4)

/-- A match of `/@(\w+)` at the front of `cs` (replaced by nothing). -/
def tryAttrRemove (cs : List Char) : Option (List Char × List Char) :=
  match cs with
  | '/' :: '@' :: rest =>
    let (w, rest2) := takeWord rest
    if w.isEmpty then none else some ([], rest2)
  | _ => none

/-- A match of `(\w+)\[\.([^\]]+)\]` at the front of `cs`, replaced by
`element.class`. -/
def tryClassBracket (cs : List Char) : Option (List Char × List Char) :=
  let (w, rest) := takeWord cs
  if w.isEmpty then none
  else
    match rest with
    | '[' :: '.' :: rest2 =>
      match takeUntil ']' rest2 with
      | some (c, rest3) =>
        if c.isEmpty then none else some (w ++ ('.' :: c), rest3)
      | none => none
    | _ => none

/-- Left-to-right non-overlapping replace-all driven by a matcher. -/
def scanWith (tryMatch : List Char → Option (List Char × List Char)) :
    Nat → List Char → List Char
  | 0, cs => cs
  | _ + 1, [] => []
  | fuel + 1, c :: cs =>
    match tryMatch (c :: cs) with
    | some (rep, rest) => rep ++ scanWith tryMatch fuel rest
    | none => c :: scanWith tryMatch fuel cs

/-- `replace_all` for the class-list `concat` idiom pattern. -/
def scanConcatContains (s : String) : String :=
  ofChars (scanWith tryConcatContains (chars s).length (chars s))

/-- `replace_all` for the `contains(@attr, ' v ')` pattern. -/
def scanAttrContains (s : String) : String :=
  ofChars (scanWith tryAttrContains (chars s).length (chars s))

/-- `replace_all` for the `/@attr` extraction pattern. -/
def scanAttrRemove (s : String) : String :=
  ofChars (scanWith tryAttrRemove (chars s).length (chars s))

/-- `replace_all` for the `element[.class]` pattern. -/
def scanClassBracket (s : String) : String :=
  ofChars (scanWith tryClassBracket (chars s).length (chars s))

/-- The source's `while css.contains("  ")` space-normalisation loop. -/
def squeezeSpaces (fuel : Nat) (css : String) : String :=
  match fuel with
  | 0 => css
  | fuel + 1 =>
    if sContains css "  " then squeezeSpaces fuel (sReplace css "  " " ")
    else css

/-! ## Data model -/

/-- `serde_json::Value`.  Object entries are kept in insertion order. -/
inductive Json where
  | null : Json
  | bool (b : Bool) : Json
  | num (n : Int) : Json
  | str (s : String) : Json
  | arr (elems : List Json) : Json
  | obj (entries : List (String × Json)) : Json
deriving Repr

/-- `serde_json::Map::get`. -/
def mapGet : List (String × Json) → String → Option Json
  | [], _ => none
  | (k', v') :: rest, k => if k' = k then some v' else mapGet rest k

/-- `serde_json::Map::insert` preserving order: an existing key keeps its
position and has its value replaced, a new key is appended. -/
def mapInsert : List (String × Json) → String → Json → List (String × Json)
  | [], k, v => [(k, v)]
  | (k', v') :: rest, k, v =>
    if k' = k then (k', v) :: rest else (k', v') :: mapInsert rest k v

/-- The rule-name-keyed store of evaluated rule results (`raw_data`). -/
def RawDataStore : Type := List (String × Json)

/-- `Value::as_array`. -/
def asArray : Json → Option (List Json)
  | .arr xs => some xs
  | _ => none

/-- `Value::as_str`. -/
def asStr : Json → Option String
  | .str s => some s
  | _ => none

/-- `Value::as_object` (the entry list). -/
def asObject : Json → Option (List (String × Json))
  | .obj es => some es
  | _ => none

/-- `enum ExtractType` of the source. -/
inductive ExtractType where
  | text : ExtractType
  | attribute : ExtractType
  | html : ExtractType
  | count : ExtractType
  | object : ExtractType
deriving Repr, DecidableEq

/-- `struct XPathRule` of the source.  `children`/`fields` and
`for_each_item`/`map_item` make the type recursive, so it is an
inductive with one constructor and accessor functions. -/
inductive XPathRule where
  | mk (name : String) (xpath : String) (extract_type : ExtractType)
      (attr_name : Option String) (iterate_over : Option String)
      (children : Option (List XPathRule)) (fields : Option (List XPathRule))
      (for_each_item : Option XPathRule) (map_item : Option XPathRule)
deriving Repr

def XPathRule.name : XPathRule → String
  | .mk n _ _ _ _ _ _ _ _ => n

def XPathRule.xpath : XPathRule → String
  | .mk _ x _ _ _ _ _ _ _ => x

def XPathRule.extract_type : XPathRule → ExtractType
  | .mk _ _ e _ _ _ _ _ _ => e

/-- The source's `attribute` field (`attribute` is a Lean keyword). -/
def XPathRule.attr_name : XPathRule → Option String
  | .mk _ _ _ a _ _ _ _ _ => a

def XPathRule.iterate_over : XPathRule → Option String
  | .mk _ _ _ _ i _ _ _ _ => i

def XPathRule.children : XPathRule → Option (List XPathRule)
  | .mk _ _ _ _ _ c _ _ _ => c

def XPathRule.fields : XPathRule → Option (List XPathRule)
  | .mk _ _ _ _ _ _ f _ _ => f

def XPathRule.for_each_item : XPathRule → Option XPathRule
  | .mk _ _ _ _ _ _ _ fe _ => fe

def XPathRule.map_item : XPathRule → Option XPathRule
  | .mk _ _ _ _ _ _ _ _ m => m

/-- `struct XPathConfig` of the source. -/
structure XPathConfig where
  name : String
  description : Option String
  output_sample : Option (List Json)
  rules : List XPathRule
deriving Repr

/-- `struct ExtractionResult` of the source. -/
structure ExtractionResult where
  config_name : String
  data : Json
  errors : List String
deriving Repr

/-! ## Model of the parsed document (the `scraper` crate boundary)

The document tree is an external collaborator: the core only queries it
through `Selector::parse`, `select` (matches in document order),
`ElementRef::text`, `::attr` and `::html`.  An `Element` therefore
records the answers to those queries; a document records its answer to
each selector string and which selector strings parse. -/

/-- A matched element: its concatenated descendant text (the value of
`element.text().collect::<String>()`), its attributes, its serialized
HTML, and its scoped selections (`element.select(sel)` per selector). -/
inductive Element where
  | mk (text : String) (attrs : List (String × String)) (html : String)
      (descendants : List (String × List Element))

def Element.text : Element → String
  | .mk t _ _ _ => t

def Element.attrs : Element → List (String × String)
  | .mk _ a _ _ => a

def Element.html : Element → String
  | .mk _ _ h _ => h

/-- `element.select(&Selector::parse(sel))`, in document order. -/
def Element.select (e : Element) (sel : String) : List Element :=
  match e with
  | .mk _ _ _ ds =>
    match ds.find? (fun p => p.1 = sel) with
    | some p => p.2
    | none => []

/-- `element.value().attr(name)`. -/
def Element.attr (e : Element) (name : String) : Option String :=
  match (e.attrs.find? (fun p => p.1 = name)) with
  | some p => some p.2
  | none => none

/-- The parsed HTML document: `document.select` per selector string and
the CSS parser's verdict per selector string (`Selector::parse` succeeds
or fails independently of the document; carrying it here keeps the model
in one value).  The always-valid literal selectors `"table"`, `"tr"`,
`"td.caltabletdnum"`, `"td.caltabletdevt"` and `"a"` of
`find_items_for_day_in_month` are unwrapped in the source, so the model
reads their selections directly without consulting the verdict. -/
structure HtmlDoc where
  selects : List (String × List Element)
  selector_parses : String → Bool

/-- `document.select(&Selector::parse(sel))`, in document order. -/
def HtmlDoc.select (d : HtmlDoc) (sel : String) : List Element :=
  match d.selects.find? (fun p => p.1 = sel) with
  | some p => p.2
  | none => []

/-- The ambient UTC clock: the four strings the source renders from
`chrono::Utc::now()` (`year()`, `month()`, `day()` via `to_string`, and
`format("%Y-%m-%d")`).  The source reads the clock ambiently; the model
passes the reading of the one invocation explicitly. -/
structure Clock where
  year : String
  month : String
  day : String
  date : String

/-! ## The selector translator (`xpath_to_css_selector`) -/

/-- The four hard-coded dividend-calendar XPath fragments tested first. -/
def patternTh : String :=
  "//table[contains(., 'Ex-Dividend Calendar')]//th[contains(@style, 'font-size: 26px')]"

def patternDayNum : String :=
  "//table[contains(., 'Ex-Dividend Calendar')]//td[contains(@class,'caltabletdevt')][.//span[@style=\"color: #4B9830; font-size: 22px;\"]]/../preceding-sibling::tr[1]/td[contains(@class,'caltabletdnum')]"

def patternRows : String :=
  "//table[contains(., 'Ex-Dividend Calendar')]//tr[td[@class='caltabletdnum']]/following-sibling::tr[1][td[@class='caltabletdevt']]"

def patternStocks : String :=
  "//table[contains(., 'Ex-Dividend Calendar')]//td[contains(@class,'caltabletdevt')][.//span[@style=\"color: #4B9830; font-size: 22px;\"]]"

/-- The `td[1]`, `tr[1]`…`tr[18]`, `font[1]`, `font[2]` rewrites. -/
def nthChildRewrites : List (String × String) :=
  [("td[1]", "td:nth-child(1)"), ("td[2]", "td:nth-child(2)"),
   ("tr[1]", "tr:nth-child(1)"), ("tr[2]", "tr:nth-child(2)"),
   ("tr[3]", "tr:nth-child(3)"), ("tr[4]", "tr:nth-child(4)"),
   ("tr[5]", "tr:nth-child(5)"), ("tr[6]", "tr:nth-child(6)"),
   ("tr[7]", "tr:nth-child(7)"), ("tr[8]", "tr:nth-child(8)"),
   ("tr[9]", "tr:nth-child(9)"), ("tr[10]", "tr:nth-child(10)"),
   ("tr[11]", "tr:nth-child(11)"), ("tr[12]", "tr:nth-child(12)"),
   ("tr[13]", "tr:nth-child(13)"), ("tr[14]", "tr:nth-child(14)"),
   ("tr[15]", "tr:nth-child(15)"), ("tr[16]", "tr:nth-child(16)"),
   ("tr[17]", "tr:nth-child(17)"), ("tr[18]", "tr:nth-child(18)"),
   ("font[1]", "font:nth-child(1)"), ("font[2]", "font:nth-child(2)")]

/-- `fn xpath_to_css_selector` (src/main.rs:883-1042), step for step.
Every return site of the source is `Ok(...)`; the `Result` return type
is kept. -/
def xpath_to_css_selector (xpathArg : String) : Except String String :=
  let xpath := sTrim xpathArg
  if sContains xpath patternTh then
    .ok "table th[style*=\"font-size: 26px\"]"
  else if sContains xpath patternDayNum then
    .ok "td.caltabletdnum"
  else if sContains xpath patternRows then
    .ok "tr"
  else if sContains xpath patternStocks then
    if sEndsWith xpath "/text()" then
      .ok "td.caltabletdevt span[style*=\"color: #000000\"] a"
    else
      .ok "td.caltabletdevt span[style*=\"color: #4B9830\"][style*=\"font-size: 22px\"]"
  else
    -- general conversion
    let css := xpath
    let css :=
      if sContains css "contains(" then
        let css := scanConcatContains css
        let css := scanAttrContains css
        if sContains css "contains(., " then
          match (sSplitWs css).head? with
          | some firstPart =>
            if sContains firstPart "[" then
              -- element name before the first '[' (`split('[').next()`)
              match takeUntil '[' (chars firstPart) with
              | some (before, _) => ofChars before
              | none => "body"
            else css
          | none => css
        else css
      else css
    let css := if sStartsWith css "//" then sDrop css 2 else css
    let css := sReplace css ".//" " "
    let css := sReplace css "//" " "
    let css := scanAttrRemove css
    let css := sReplace css "/" " "
    let css := sTrim css
    let css := squeezeSpaces (sLength css) css
    let css := sReplace css "@" ""
    let css := sTrim css
    let css := sReplace css " and " "]["
    let css := scanClassBracket css
    let css := sReplace css "'" "\""
    let css := nthChildRewrites.foldl (fun c p => sReplace c p.1 p.2) css
    let css := if sEndsWith css "/text()" then sReplace css "/text()" "" else css
    let css := sReplace css "/text()" ""
    let css := sReplace css " text()" ""
    .ok css

/-- A `for`-loop that collects one result per element, failing on the
first error (the monadic map used by the evaluation loops). -/
def mapEx {α β : Type} (f : α → Except String β) : List α → Except String (List β)
  | [] => .ok []
  | a :: as => do
    let b ← f a
    let bs ← mapEx f as
    pure (b :: bs)

/-! ## The day/month association resolver (`find_items_for_day_in_month`) -/

/-- `fn find_items_for_day_in_month` (src/main.rs:817-881): scan the
calendar tables; in each qualifying table, for a day-number row holding
`day`, read the same column of the immediately following items row.
The source always returns `Ok`; the model is pure. -/
def find_items_for_day_in_month (d : HtmlDoc) (day : String)
    (month : Option String) : List Json :=
  (d.select "table").foldl (fun items table =>
    let tableText := table.text
    if sContains tableText "Ex-Dividend Calendar" then
      if (match month with
          | some monthName => !(sContains tableText monthName)
          | none => false) then items
      else
        let rows := table.select "tr"
        (List.range rows.length).foldl (fun items i =>
          match rows.get? i with
          | none => items
          | some row =>
            let dayNums := ((row.select "td.caltabletdnum").map
                (fun el => sTrim el.text)).filter (fun s => s ≠ "")
            if dayNums.contains day then
              match dayNums.findIdx? (fun dn => dn = day) with
              | some dayIndex =>
                if i + 1 < rows.length then
                  match rows.get? (i + 1) with
                  | some itemRow =>
                    let itemCells := (itemRow.select "td.caltabletdevt").map
                      (fun cell => ((cell.select "a").map
                        (fun link => sTrim link.text)).filter (fun s => s ≠ ""))
                    match itemCells.get? dayIndex with
                    | some cellItems =>
                      if !cellItems.isEmpty then
                        items ++ cellItems.map Json.str
                      else items
                    | none => items
                  | none => items
                else items
              | none => items
            else items) items
    else items) []

/-- `fn find_items_for_day` (src/main.rs:813-815). -/
def find_items_for_day (d : HtmlDoc) (day : String) : List Json :=
  find_items_for_day_in_month d day none

/-! ## The rule evaluator (`process_rule`) -/

/-- The Text extraction loop: per element, concatenated descendant text,
trimmed, empty results dropped (src/main.rs:752-765 and 684-690). -/
def textValues (els : List Element) : List Json :=
  ((els.map (fun e => sTrim e.text)).filter (fun t => t ≠ "")).map Json.str

/-- The Attribute extraction loop: the named attribute per element,
elements without the attribute skipped (src/main.rs:774-781, 698-705). -/
def attrValues (els : List Element) (attrName : Option String) : List Json :=
  els.filterMap (fun e =>
    match attrName with
    | some a => (e.attr a).map Json.str
    | none => none)

/-- The Html extraction loop (src/main.rs:790-794, 713-715). -/
def htmlValues (els : List Element) : List Json :=
  els.map (fun e => Json.str e.html)

/-- The cardinality collapse the source applies after each extraction
loop: `if results.len() == 1 { results.into_iter().next().unwrap_or(Null) }
else { Value::Array(results) }`. -/
def collapseValues : List Json → Json
  | [v] => v
  | vs => .arr vs

/-- One child rule of an Object rule, evaluated scoped to `element`
(src/main.rs:677-730).  Nested Object children yield `Null`. -/
def process_child_rule (d : HtmlDoc) (element : Element) (child : XPathRule) :
    Except String Json := do
  let childSelectorStr ← xpath_to_css_selector child.xpath
  if d.selector_parses childSelectorStr then
    let els := element.select childSelectorStr
    match child.extract_type with
    | .text => pure (collapseValues (textValues els))
    | .attribute => pure (collapseValues (attrValues els child.attr_name))
    | .html => pure (collapseValues (htmlValues els))
    | .count => pure (.num els.length)
    | .object => pure .null
  else throw ("Failed to parse child selector: " ++ childSelectorStr)

/-- `fn process_rule` (src/main.rs:630-811).  `fuel` bounds the
`for_each_item` recursion depth. -/
def process_rule (fuel : Nat) (d : HtmlDoc) (rule : XPathRule) :
    Except String Json :=
  match fuel with
  | 0 => throw "recursion fuel exhausted"
  | fuel + 1 =>
    match rule.for_each_item with
    | some forEachItem => do
      -- nested structure with for-each-item and map-item (632-659)
      let forEachResult ← process_rule fuel d forEachItem
      match forEachItem.map_item with
      | some _ =>
        let items :=
          match forEachResult with
          | .arr xs => xs
          | v => [v]
        let mapped := items.filterMap (fun item =>
          match asStr item with
          | some dayStr => some (Json.arr (find_items_for_day d dayStr))
          | none => none)
        pure (.arr mapped)
      | none => pure forEachResult
    | none =>
      match rule.extract_type with
      | .object =>
        -- Object extract type with children/fields (662-743)
        match (match rule.children with
               | some c => some c
               | none => rule.fields) with
        | some childrenRules => do
          let selectorStr ← xpath_to_css_selector rule.xpath
          if d.selector_parses selectorStr then
            let results ← mapEx (fun element => do
              let objectResult ← childrenRules.foldlM
                (fun (acc : List (String × Json)) child => do
                  let childValue ← process_child_rule d element child
                  pure (mapInsert acc child.name childValue)) []
              pure (Json.obj objectResult)) (d.select selectorStr)
            pure (collapseValues results)
          else throw "Failed to parse selector"
        | none => throw "Object extract type requires 'children' or 'fields'"
      | _ => do
        -- flat extraction (745-811)
        let selectorStr ← xpath_to_css_selector rule.xpath
        if d.selector_parses selectorStr then
          let els := d.select selectorStr
          match rule.extract_type with
          | .text => pure (collapseValues (textValues els))
          | .attribute => pure (collapseValues (attrValues els rule.attr_name))
          | .html => pure (collapseValues (htmlValues els))
          | .count => pure (.num els.length)
          | .object =>
            throw "Object extract type must have 'children' or 'fields' defined"
        else throw "Failed to parse selector"

/-! ## The template projector: helpers -/

/-- Remove the surrounding `{` and `}` (`&s[1..s.len()-1]` on a string
that starts with `{` and ends with `}`). -/
def stripBraces (s : String) : String := sDropRight (sDrop s 1) 1

/-- `fn process_paired_data` (src/main.rs:404-429): zip the two named
arrays index-wise up to the shorter length (the source's index loop to
`min(len, len)` with both `get(i)` is the zip), keeping only positions
where both entries are strings, trimming each. -/
def process_paired_data (keyTemplate valueTemplate : String)
    (raw : RawDataStore) : Except String Json :=
  let keyRule := stripBraces keyTemplate
  let valueRule := stripBraces valueTemplate
  let keyArray := ((mapGet raw keyRule).bind asArray).getD []
  let valueArray := ((mapGet raw valueRule).bind asArray).getD []
  let result := (keyArray.zip valueArray).foldl (fun res p =>
    match p with
    | (.str keyStr, .str valueStr) =>
      res ++ [Json.obj [(sTrim keyStr, Json.str (sTrim valueStr))]]
    | _ => res) []
  .ok (.arr result)

/-- Push a value onto a key's group, first insertion fixing the key's
position.  Models the source's `HashMap::entry(..).or_insert(..).push`;
Rust's hash iteration order is unspecified, the model iterates groups in
first-insertion order (output object equality in `serde_json` ignores
entry order, so no claim depends on this choice). -/
def addToGroup : List (String × List Json) → String → Json →
    List (String × List Json)
  | [], k, v => [(k, [v])]
  | (k', vs) :: rest, k, v =>
    if k' = k then (k', vs ++ [v]) :: rest
    else (k', vs) :: addToGroup rest k v

/-- `fn process_days_with_items` (src/main.rs:431-466): distribute the
flat `items` array round-robin (`index mod dayCount`) across `days`. -/
def process_days_with_items (raw : RawDataStore) : Except String Json :=
  let days := ((mapGet raw "days").bind asArray).getD []
  let items := ((mapGet raw "items").bind asArray).getD []
  let dayItemsMap := items.enum.foldl
    (fun (m : List (String × List Json)) p =>
      let (i, item) := p
      if !days.isEmpty then
        match days.get? (i % days.length) with
        | some dayValue =>
          match asStr dayValue with
          | some dayStr => addToGroup m (sTrim dayStr) item
          | none => m
        | none => m
      else m) []
  let result := dayItemsMap.foldl (fun r p => mapInsert r p.1 (Json.arr p.2)) []
  .ok (.obj result)

/-- `fn process_numbered_days_with_items` (src/main.rs:468-512): the
day at `dayIndex` with an even split of the flat `items` array, the last
day absorbing the remainder. -/
def process_numbered_days_with_items (raw : RawDataStore) (dayIndex : Nat) :
    Except String Json :=
  let days := ((mapGet raw "days").bind asArray).getD []
  let items := ((mapGet raw "items").bind asArray).getD []
  let dayValue := if dayIndex < days.length then days.get? dayIndex else none
  match dayValue with
  | some day =>
    match asStr day with
    | some _dayStr =>
      let itemsForDay :=
        if !days.isEmpty && !items.isEmpty then
          let itemsPerDay := items.length / days.length
          let startIndex := dayIndex * itemsPerDay
          let endIndex :=
            if dayIndex = days.length - 1 then items.length
            else startIndex + itemsPerDay
          (List.range' startIndex (endIndex - startIndex)).filterMap
            (fun i => items.get? i)
        else []
      .ok (.arr itemsForDay)
    | none => .ok (.arr [])
  | none => .ok (.arr [])

/-- `fn process_day_range_with_items` (src/main.rs:514-571): with a
`day_items` object present, one entry per `i ∈ [startDay, endDay]`
skipping `i = 0`, keyed `toString i`, valued `day_items[toString i]` or
`[]`; without it, the even-split fallback over `days`/`items`. -/
def process_day_range_with_items (raw : RawDataStore)
    (startDay endDay : Nat) : Except String Json :=
  match (mapGet raw "day_items").bind asObject with
  | some dayItemsObj =>
    let result := (List.range' startDay (endDay + 1 - startDay)).foldl
      (fun result i =>
        if i = 0 then result
        else
          let dayKey := toString i
          match mapGet dayItemsObj dayKey with
          | some dayItems => mapInsert result dayKey dayItems
          | none => mapInsert result dayKey (Json.arr [])) []
    .ok (.obj result)
  | none =>
    let days := ((mapGet raw "days").bind asArray).getD []
    let items := ((mapGet raw "items").bind asArray).getD []
    if !days.isEmpty && !items.isEmpty then
      let itemsPerDay := items.length / days.length
      let result := days.enum.foldl
        (fun (result : List (String × Json)) p =>
          let (dayIndex, dayValue) := p
          match asStr dayValue with
          | some dayStr =>
            let dayKey := sTrim dayStr
            let startIndex := dayIndex * itemsPerDay
            let endIndex :=
              if dayIndex = days.length - 1 then items.length
              else startIndex + itemsPerDay
            let itemsForDay := (List.range' startIndex
              (endIndex - startIndex)).filterMap (fun i => items.get? i)
            mapInsert result dayKey (.arr itemsForDay)
          | none => result) []
      .ok (.obj result)
    else .ok (.obj [])

/-- `fn process_template_variable` (src/main.rs:573-628): resolve an
object key.  Always `Ok` in the source. -/
def process_template_variable (key : String) (raw : RawDataStore)
    (clock : Clock) : Except String String :=
  if sStartsWith key "\x7b" && sEndsWith key "\x7d" then
    let ruleName := stripBraces key
    if ruleName = "currentYear" then .ok clock.year
    else if ruleName = "currentMonth" then .ok clock.month
    else if ruleName = "currentDay" then .ok clock.day
    else if ruleName = "currentDate" then .ok clock.date
    else if ruleName = "months" then
      match (mapGet raw "months").bind asArray with
      | some monthsArray =>
        match monthsArray.head? with
        | some firstMonth =>
          match asStr firstMonth with
          | some monthStr => .ok (((sSplitWs monthStr).head?).getD "October")
          | none => .ok key
        | none => .ok key
      | none => .ok key
    else if sStartsWith ruleName "days" && 4 < sLength ruleName then
      if sContains ruleName "-" then .ok ruleName
      else
        match parseUsize (sDrop ruleName 4) with
        | some dayIndex =>
          match (mapGet raw "days").bind asArray with
          | some daysArray =>
            match daysArray.get? dayIndex with
            | some dayValue =>
              match asStr dayValue with
              | some dayStr => .ok (sTrim dayStr)
              | none => .ok key
            | none => .ok key
          | none => .ok key
        | none => .ok key
    else
      match mapGet raw ruleName with
      | some rawValue =>
        match asArray rawValue with
        | some rawArray =>
          match rawArray.head? with
          | some firstValue =>
            match asStr firstValue with
            | some strValue => .ok (sTrim strValue)
            | none => .ok key
          | none => .ok key
        | none =>
          match asStr rawValue with
          | some strValue => .ok (sTrim strValue)
          | none => .ok key
      | none => .ok key
  else .ok key

/-! ## Month sorting (src/main.rs:258-270) -/

def month_order : List String :=
  ["January", "February", "March", "April", "May", "June",
   "July", "August", "September", "October", "November", "December"]

/-- Position in `month_order`, 12 for an unrecognized name. -/
def monthIdx (name : String) : Nat :=
  (month_order.findIdx? (fun m => m = name)).getD 12

/-- The comparator key of `sort_by`: the leading whitespace-separated
token of a string entry, `""` otherwise (both defaulted by
`unwrap_or("")`). -/
def monthSortKey (v : Json) : Nat :=
  monthIdx (match asStr v with
    | some s => ((sSplitWs s).head?).getD ""
    | none => "")

/-- Stable insertion by the month comparator. -/
def orderedInsertMonth (x : Json) : List Json → List Json
  | [] => [x]
  | y :: ys =>
    if monthSortKey x ≤ monthSortKey y then x :: y :: ys
    else y :: orderedInsertMonth x ys

/-- `sorted_months.sort_by(..)` — `Vec::sort_by` is a stable sort, and a
stable sort is, as a function, the stable insertion sort on the same
comparator. -/
def sortMonths : List Json → List Json
  | [] => []
  | x :: xs => orderedInsertMonth x (sortMonths xs)

/-- The month name taken inside the expansion loop (src/main.rs:277):
first whitespace token, `unwrap_or("October")`. -/
def monthNameOf (monthStr : String) : String :=
  ((sSplitWs monthStr).head?).getD "October"

/-! ## Day-key parsing (src/main.rs:312-338) -/

/-- The conditions under which a template key triggers day-range
expansion: `{days…}` shape, `rule_name` longer than `days`, a `-`
present, and both halves of `rule_name[4..].split_once('-')` parse as
`usize`. -/
def parseDayRangeKey (key : String) : Option (Nat × Nat) :=
  if sStartsWith key "\x7bdays" && sEndsWith key "\x7d" then
    let ruleName := stripBraces key
    if sStartsWith ruleName "days" && 4 < sLength ruleName then
      if sContains ruleName "-" then
        match sSplitOnce (sDrop ruleName 4) "-" with
        | some (startStr, endStr) =>
          match parseUsize startStr, parseUsize endStr with
          | some s, some e => some (s, e)
          | _, _ => none
        | none => none
      else none
    else none
  else none

/-- The conditions for the indexed-day lookup `{daysN}`: as above but
with no `-`, the suffix parsing as one `usize`. -/
def parseSingleDayKey (key : String) : Option Nat :=
  if sStartsWith key "\x7bdays" && sEndsWith key "\x7d" then
    let ruleName := stripBraces key
    if sStartsWith ruleName "days" && 4 < sLength ruleName then
      if sContains ruleName "-" then none
      else parseUsize (sDrop ruleName 4)
    else none
  else none

/-! ## The template projector (`process_hierarchical_template`) -/

/-- The month-scoped copy of the data store built inside month
expansion (src/main.rs:278-296): `day_items` refiltered through
`find_items_for_day_in_month` with the month's `"<name> 2025"` label. -/
def month_scoped_raw (raw : RawDataStore) (d : HtmlDoc)
    (monthName : String) : RawDataStore :=
  let fullMonthName := monthName ++ " 2025"
  match (mapGet raw "day_items").bind asObject with
  | some dayItemsObj =>
    let monthDayItems := dayItemsObj.foldl
      (fun (m : List (String × Json)) p => mapInsert m p.1
        (Json.arr (find_items_for_day_in_month d p.1
          (some fullMonthName)))) []
    mapInsert raw "day_items" (.obj monthDayItems)
  | none => raw

/-- One entry of an object template (the body of the source's
`for (key, value) in obj` loop, src/main.rs:252-344).  `recur` is the
recursive projection of a sub-template against a (possibly
month-scoped) data store; factoring the loop body out of
`process_hierarchical_template` names it for the proofs without
changing the recursion. -/
def process_template_entry
    (recur : Json → RawDataStore → Except String Json)
    (raw : RawDataStore) (d : HtmlDoc) (clock : Clock)
    (result : List (String × Json)) (entry : String × Json) :
    Except String (List (String × Json)) := do
  let key := entry.1
  let value := entry.2
  -- month expansion, checked before process_template_variable (253-309)
  match (if key = "{months}" then (mapGet raw "months").bind asArray
         else none) with
  | some monthsArray => do
    let sortedMonths := sortMonths monthsArray
    let monthResults ← sortedMonths.foldlM
      (fun (acc : List (String × Json)) monthValue => do
        match asStr monthValue with
        | some monthStr =>
          let monthName := monthNameOf monthStr
          let processedValue ← recur value (month_scoped_raw raw d monthName)
          pure (acc ++ [(monthName, processedValue)])
        | none => pure acc) []
    pure (monthResults.foldl (fun r p => mapInsert r p.1 p.2) result)
  | none =>
    -- day-range expansion, merged into the parent (311-328)
    match parseDayRangeKey key with
    | some se => do
      let processedValue ← process_day_range_with_items raw se.1 se.2
      match processedValue with
      | .obj dayMap =>
        pure (dayMap.foldl (fun r p => mapInsert r p.1 p.2) result)
      | _ => pure result
    | none =>
      -- indexed-day lookup (329-337)
      match parseSingleDayKey key with
      | some dayIndex => do
        let processedValue ← process_numbered_days_with_items raw dayIndex
        let processedKey ← process_template_variable key raw clock
        pure (mapInsert result processedKey processedValue)
      | none => do
        -- the general entry (341-343)
        let processedKey ← process_template_variable key raw clock
        let processedValue ← recur value raw
        pure (mapInsert result processedKey processedValue)

/-- `fn process_hierarchical_template` (src/main.rs:248-402).  `fuel`
bounds the recursion depth over the template (every recursive call is on
a strict subterm of `template`). -/
def process_hierarchical_template (fuel : Nat) (template : Json)
    (raw : RawDataStore) (d : HtmlDoc) (clock : Clock) : Except String Json :=
  match fuel with
  | 0 => throw "recursion fuel exhausted"
  | fuel + 1 =>
    match template with
    | .obj entries => do
      let result ← entries.foldlM
        (process_template_entry
          (fun v r => process_hierarchical_template fuel v r d clock)
          raw d clock) []
      pure (.obj result)
    | .arr arrElems =>
      -- `["{items}"]`: group items by day (349-351)
      if arrElems.length = 1 ∧ (arrElems.head?.bind asStr) = some "{items}" then
        process_days_with_items raw
      else
        -- `[{"{A}": "{B}"}]`: paired-array zipping (353-364)
        match (if arrElems.length = 1 then arrElems.head?.bind asObject
               else none) with
        | some [(pairKey, pairValue)] =>
          (match asStr pairValue with
           | some pairValueStr =>
             if sStartsWith pairKey "\x7b" && sEndsWith pairKey "\x7d" &&
                sStartsWith pairValueStr "\x7b" && sEndsWith pairValueStr "\x7d" then
               process_paired_data pairKey pairValueStr raw
             else do
               let rs ← mapEx (fun item =>
                 process_hierarchical_template fuel item raw d clock) arrElems
               pure (.arr rs)
           | none => do
             let rs ← mapEx (fun item =>
               process_hierarchical_template fuel item raw d clock) arrElems
             pure (.arr rs))
        | _ => do
          -- every other array: element-wise projection (366-371)
          let rs ← mapEx (fun item =>
            process_hierarchical_template fuel item raw d clock) arrElems
          pure (.arr rs)
    | .str s =>
      -- string templates (373-399)
      if sStartsWith s "\x7b" && sEndsWith s "\x7d" then
        let ruleName := stripBraces s
        if ruleName = "currentYear" then .ok (.str clock.year)
        else if ruleName = "currentMonth" then .ok (.str clock.month)
        else if ruleName = "currentDay" then .ok (.str clock.day)
        else if ruleName = "currentDate" then .ok (.str clock.date)
        else if sStartsWith ruleName "days" && 4 < sLength ruleName then
          match parseUsize (sDrop ruleName 4) with
          | some dayIndex => process_numbered_days_with_items raw dayIndex
          | none => .ok (.str s)
        else
          match mapGet raw ruleName with
          | some rawValue => .ok rawValue
          | none => .ok (.str s)
      else .ok (.str s)
    | other => .ok other

/-! ## The pipeline (`generate_structured_output`, `process_html`) -/

/-- `fn generate_structured_output` (src/main.rs:242-246).  The source
indexes `output_sample[0]` unconditionally; on an empty sample that
indexing is out of bounds and the program panics, modelled as `none`. -/
def generate_structured_output (fuel : Nat) (raw : RawDataStore)
    (output_sample : List Json) (d : HtmlDoc) (clock : Clock) :
    Option (Except String Json) :=
  match output_sample with
  | [] => none
  | t :: _ => some (do
      let result ← process_hierarchical_template fuel t raw d clock
      pure (Json.arr [result]))

/-- The rule loop of `fn process_html` (src/main.rs:166-226): each rule
is evaluated with `process_rule`; a failing rule contributes one error
naming it and a `null` stored value.  A rule named `months` carrying a
`for-each-item` takes the special path (171-215), whose own failures —
an unparseable months selector, a failing `for-each-item`, a non-array
days result — propagate with `?` and abort the whole run. -/
def process_rules (fuel : Nat) (d : HtmlDoc) :
    List XPathRule → RawDataStore → List String →
    Except String (RawDataStore × List String)
  | [], raw, errors => .ok (raw, errors)
  | rule :: rest, raw, errors =>
    match process_rule fuel d rule with
    | .ok value =>
      if rule.name = "months" ∧ rule.for_each_item.isSome then do
        -- months special path: re-select the month names (172-188)
        let cssSelector ← xpath_to_css_selector rule.xpath
        if d.selector_parses cssSelector then
          let monthsResults := textValues (d.select cssSelector)
          let monthsResult := collapseValues monthsResults
          let raw := mapInsert raw "months" monthsResult
          match rule.for_each_item with
          | some forEachItem => do
            -- days per month (191-193)
            let daysResult ← process_rule fuel d forEachItem
            let raw := mapInsert raw "days" daysResult
            if forEachItem.map_item.isSome then
              match daysResult with
              | .arr daysArray =>
                -- day → items mapping via find_items_for_day (196-213)
                let dayItemsMap := daysArray.foldl
                  (fun (m : List (String × Json)) dayValue =>
                    match asStr dayValue with
                    | some dayStr => mapInsert m dayStr
                        (Json.arr (find_items_for_day d dayStr))
                    | none => m) []
                process_rules fuel d rest
                  (mapInsert raw "day_items" (.obj dayItemsMap)) errors
              | _ => throw "Days result is not an array"
            else process_rules fuel d rest raw errors
          | none => process_rules fuel d rest raw errors
        else throw "Invalid CSS selector"
      else
        process_rules fuel d rest (mapInsert raw rule.name value) errors
    | .error e =>
      process_rules fuel d rest (mapInsert raw rule.name Json.null)
        (errors ++ ["Error processing rule '" ++ rule.name ++ "': " ++ e])

/-- `fn process_html` (src/main.rs:159-240), from the parsed document
on: run the rules, then project the output sample when present.
`none` models a panic, `some (.error e)` the fatal `Err` return. -/
def process_html (fuel : Nat) (config : XPathConfig) (d : HtmlDoc)
    (clock : Clock) : Option (Except String ExtractionResult) :=
  match process_rules fuel d config.rules [] [] with
  | .error e => some (.error e)
  | .ok (raw, errors) =>
    match config.output_sample with
    | some sample =>
      match generate_structured_output fuel raw sample d clock with
      | none => none
      | some (.error e) => some (.error e)
      | some (.ok structuredData) =>
        some (.ok ⟨config.name, structuredData, errors⟩)
    | none => some (.ok ⟨config.name, Json.obj raw, errors⟩)

/-! ## Generic lemmas -/

@[simp] theorem ok_bind {α β : Type} (a : α) (f : α → Except String β) :
    (Except.ok a >>= f) = f a := rfl

theorem sizeOf_val_lt_obj {k : String} {v : Json} {es : List (String × Json)}
    (h : (k, v) ∈ es) : sizeOf v < sizeOf (Json.obj es) := by
  have h1 : sizeOf (k, v) < sizeOf es := List.sizeOf_lt_of_mem h
  simp only [Json.obj.sizeOf_spec]
  simp only [Prod.mk.sizeOf_spec] at h1
  omega

theorem sizeOf_elem_lt_arr {v : Json} {es : List Json} (h : v ∈ es) :
    sizeOf v < sizeOf (Json.arr es) := by
  have h1 : sizeOf v < sizeOf es := List.sizeOf_lt_of_mem h
  simp only [Json.arr.sizeOf_spec]
  omega

theorem foldlM_ok_of_forall {α β : Type} {f : β → α → Except String β}
    {l : List α} (h : ∀ a ∈ l, ∀ acc, ∃ r, f acc a = .ok r) :
    ∀ acc, ∃ r, l.foldlM f acc = .ok r := by
  induction l with
  | nil => exact fun acc => ⟨acc, rfl⟩
  | cons a as ih =>
    intro acc
    obtain ⟨r, hr⟩ := h a (List.mem_cons_self a as) acc
    obtain ⟨r', hr'⟩ := ih (fun b hb acc' => h b (List.mem_cons_of_mem a hb) acc') r
    exact ⟨r', by simp [List.foldlM_cons, hr, hr']⟩

theorem foldlM_bind_ok {α β γ : Type} {f : β → α → Except String β}
    {l : List α} (k : β → γ) (acc : β)
    (h : ∀ a ∈ l, ∀ b, ∃ r, f b a = .ok r) :
    ∃ v, (l.foldlM f acc >>= fun r => pure (k r)) = .ok v := by
  obtain ⟨r, hr⟩ := foldlM_ok_of_forall h acc
  exact ⟨k r, by rw [hr]; rfl⟩

theorem foldlM_congr {α β : Type} {f g : β → α → Except String β} {l : List α}
    (h : ∀ a ∈ l, ∀ acc, f acc a = g acc a) :
    ∀ acc, l.foldlM f acc = l.foldlM g acc := by
  induction l with
  | nil => intro acc; rfl
  | cons a as ih =>
    intro acc
    simp only [List.foldlM_cons, h a (List.mem_cons_self a as) acc]
    cases hg : g acc a with
    | error e => rfl
    | ok r => simp [ih (fun b hb acc' => h b (List.mem_cons_of_mem a hb) acc')]

theorem mapEx_ok_of_forall {α β : Type} {f : α → Except String β} {l : List α}
    (h : ∀ a ∈ l, ∃ r, f a = .ok r) : ∃ rs, mapEx f l = .ok rs := by
  induction l with
  | nil => exact ⟨[], rfl⟩
  | cons a as ih =>
    obtain ⟨r, hr⟩ := h a (List.mem_cons_self a as)
    obtain ⟨rs, hrs⟩ := ih (fun b hb => h b (List.mem_cons_of_mem a hb))
    exact ⟨r :: rs, by simp [mapEx, hr, hrs]⟩

theorem mapEx_id_of_forall {f : Json → Except String Json} {l : List Json}
    (h : ∀ a ∈ l, f a = .ok a) : mapEx f l = .ok l := by
  induction l with
  | nil => rfl
  | cons a as ih =>
    simp [mapEx, h a (List.mem_cons_self a as),
      ih (fun b hb => h b (List.mem_cons_of_mem a hb))]

theorem mapEx_bind_ok {α β γ : Type} {f : α → Except String β} {l : List α}
    (k : List β → γ) (h : ∀ a ∈ l, ∃ r, f a = .ok r) :
    ∃ v, (mapEx f l >>= fun rs => pure (k rs)) = .ok v := by
  obtain ⟨rs, hrs⟩ := mapEx_ok_of_forall h
  exact ⟨k rs, by rw [hrs]; rfl⟩

theorem mapEx_congr {α β : Type} {f g : α → Except String β} {l : List α}
    (h : ∀ a ∈ l, f a = g a) : mapEx f l = mapEx g l := by
  induction l with
  | nil => rfl
  | cons a as ih =>
    simp only [mapEx, h a (List.mem_cons_self a as)]
    cases hg : g a with
    | error e => rfl
    | ok r => simp [ih (fun b hb => h b (List.mem_cons_of_mem a hb))]

theorem mapInsert_of_not_mem {l : List (String × Json)} {k : String}
    (v : Json) (h : k ∉ l.map Prod.fst) : mapInsert l k v = l ++ [(k, v)] := by
  induction l with
  | nil => rfl
  | cons p rest ih =>
    simp only [List.map_cons, List.mem_cons, not_or] at h
    simp only [mapInsert]
    rw [if_neg (fun hk => h.1 hk.symm), ih h.2]
    rfl

theorem foldl_mapInsert_eq_append {l acc : List (String × Json)}
    (h : (acc.map Prod.fst ++ l.map Prod.fst).Nodup) :
    l.foldl (fun r p => mapInsert r p.1 p.2) acc = acc ++ l := by
  induction l generalizing acc with
  | nil => simp
  | cons p rest ih =>
    have hfresh : p.1 ∉ acc.map Prod.fst := fun hmem =>
      (List.nodup_append.mp h).2.2 hmem (by simp)
    have hstep : (List.foldl (fun r p => mapInsert r p.1 p.2) acc (p :: rest)) =
        List.foldl (fun r p => mapInsert r p.1 p.2) (acc ++ [p]) rest := by
      simp only [List.foldl_cons, mapInsert_of_not_mem p.2 hfresh]
    rw [hstep, ih (by simpa [List.append_assoc] using h)]
    simp

/-! ## The helpers of the projector never fail -/

theorem process_paired_data_ok (keyT valT : String) (raw : RawDataStore) :
    ∃ v, process_paired_data keyT valT raw = .ok v := ⟨_, rfl⟩

theorem process_days_with_items_ok (raw : RawDataStore) :
    ∃ v, process_days_with_items raw = .ok v := ⟨_, rfl⟩

theorem process_numbered_days_with_items_ok (raw : RawDataStore) (i : Nat) :
    ∃ v, process_numbered_days_with_items raw i = .ok v := by
  unfold process_numbered_days_with_items
  dsimp only
  repeat' split
  all_goals exact ⟨_, rfl⟩

theorem process_day_range_with_items_ok (raw : RawDataStore) (s e : Nat) :
    ∃ v, process_day_range_with_items raw s e = .ok v := by
  unfold process_day_range_with_items
  dsimp only
  repeat' split
  all_goals exact ⟨_, rfl⟩

theorem process_template_variable_ok (key : String) (raw : RawDataStore)
    (clock : Clock) : ∃ s, process_template_variable key raw clock = .ok s := by
  unfold process_template_variable
  dsimp only
  repeat' split
  all_goals exact ⟨_, rfl⟩

/-! ## Totality of the template projector (claim C4's core) -/

theorem process_template_entry_ok
    (recur : Json → RawDataStore → Except String Json)
    (raw : RawDataStore) (d : HtmlDoc) (c : Clock)
    (acc : List (String × Json)) (entry : String × Json)
    (hrec : ∀ r : RawDataStore, ∃ v, recur entry.2 r = .ok v) :
    ∃ v, process_template_entry recur raw d c acc entry = .ok v := by
  obtain ⟨key, value⟩ := entry
  unfold process_template_entry
  dsimp only
  split
  · -- month expansion
    apply foldlM_bind_ok
      (fun (mr : List (String × Json)) =>
        mr.foldl (fun (r : List (String × Json)) (p : String × Json) =>
          mapInsert r p.1 p.2) acc) []
    intro mv hmv acc'
    dsimp only
    split
    · obtain ⟨pv, hpv⟩ := hrec _
      exact ⟨_, by rw [hpv]; rfl⟩
    · exact ⟨_, rfl⟩
  · split
    · -- day-range expansion
      obtain ⟨rv, hrv⟩ := process_day_range_with_items_ok raw _ _
      rw [hrv]
      cases rv with
      | obj dayMap => exact ⟨_, rfl⟩
      | null => exact ⟨_, rfl⟩
      | bool b => exact ⟨_, rfl⟩
      | num m => exact ⟨_, rfl⟩
      | str s => exact ⟨_, rfl⟩
      | arr xs => exact ⟨_, rfl⟩
    · split
      · -- indexed-day lookup
        obtain ⟨nv, hnv⟩ := process_numbered_days_with_items_ok raw _
        obtain ⟨ks, hks⟩ := process_template_variable_ok key raw c
        rw [hnv, ok_bind, hks]
        exact ⟨_, rfl⟩
      · -- general entry
        obtain ⟨ks, hks⟩ := process_template_variable_ok key raw c
        obtain ⟨pv, hpv⟩ := hrec raw
        rw [hks, ok_bind, hpv]
        exact ⟨_, rfl⟩

theorem process_hierarchical_template_total :
    ∀ (fuel : Nat) (t : Json) (raw : RawDataStore) (d : HtmlDoc) (c : Clock),
      sizeOf t < fuel →
      ∃ v, process_hierarchical_template fuel t raw d c = .ok v := by
  intro fuel
  induction fuel with
  | zero => intro t raw d c h; omega
  | succ n ih =>
    intro t raw d c h
    match t with
    | .null => exact ⟨_, rfl⟩
    | .bool b => exact ⟨_, rfl⟩
    | .num m => exact ⟨_, rfl⟩
    | .str s =>
      simp only [process_hierarchical_template]
      repeat' split
      all_goals first
        | exact ⟨_, rfl⟩
        | exact process_numbered_days_with_items_ok _ _
    | .arr elems =>
      simp only [process_hierarchical_template]
      have hrec : ∀ item ∈ elems, ∃ r,
          process_hierarchical_template n item raw d c = .ok r := by
        intro item hitem
        have hs : sizeOf item < sizeOf (Json.arr elems) := sizeOf_elem_lt_arr hitem
        exact ih item raw d c (by omega)
      split
      · exact process_days_with_items_ok raw
      · split
        · split
          · split
            · exact process_paired_data_ok _ _ raw
            · exact mapEx_bind_ok Json.arr hrec
          · exact mapEx_bind_ok Json.arr hrec
        · exact mapEx_bind_ok Json.arr hrec
    | .obj entries =>
      simp only [process_hierarchical_template]
      apply foldlM_bind_ok Json.obj []
      intro p hp acc
      apply process_template_entry_ok
      intro r
      have hs : sizeOf p.2 < sizeOf (Json.obj entries) := by
        obtain ⟨key, value⟩ := p
        exact sizeOf_val_lt_obj hp
      exact ih p.2 r d c (by omega)

/-! ## Per-rule isolation for the ordinary rule loop (claim C3's core) -/

/-- The value the loop stores for a rule: the evaluated result, or
`null` when the rule failed. -/
def rule_value_or_null (fuel : Nat) (d : HtmlDoc) (r : XPathRule) : Json :=
  match process_rule fuel d r with
  | .ok v => v
  | .error _ => .null

/-- The error-list entry a rule contributes: none on success, the
tagged message on failure. -/
def rule_error_entry (fuel : Nat) (d : HtmlDoc) (r : XPathRule) : Option String :=
  match process_rule fuel d r with
  | .ok _ => none
  | .error e => some ("Error processing rule '" ++ r.name ++ "': " ++ e)

theorem process_rules_isolated (fuel : Nat) (d : HtmlDoc) :
    ∀ rules : List XPathRule,
      (∀ r ∈ rules, ¬(r.name = "months" ∧ r.for_each_item.isSome)) →
      ∀ raw errors, process_rules fuel d rules raw errors =
        .ok (rules.foldl
              (fun m r => mapInsert m r.name (rule_value_or_null fuel d r)) raw,
             errors ++ rules.filterMap (rule_error_entry fuel d)) := by
  intro rules
  induction rules with
  | nil => intro _ raw errors; simp [process_rules]
  | cons r rest ih =>
    intro h raw errors
    have hr := h r (List.mem_cons_self r rest)
    have hrest := fun b hb => h b (List.mem_cons_of_mem r hb)
    cases hpr : process_rule fuel d r with
    | ok v =>
      simp only [process_rules, hpr, if_neg hr]
      rw [ih hrest]
      simp [List.filterMap_cons, rule_value_or_null, rule_error_entry, hpr]
    | error e =>
      simp only [process_rules, hpr]
      rw [ih hrest]
      simp [List.filterMap_cons, rule_value_or_null, rule_error_entry, hpr]

/-! ## Cardinality collapse of the flat extractions (claim C1's core) -/

/-- The per-match values of a flat Text/Attribute/Html rule, in document
order. -/
def flat_rule_values (d : HtmlDoc) (rule : XPathRule) (css : String) : List Json :=
  match rule.extract_type with
  | .text => textValues (d.select css)
  | .attribute => attrValues (d.select css) rule.attr_name
  | .html => htmlValues (d.select css)
  | _ => []

theorem process_rule_collapse (fuel : Nat) (d : HtmlDoc) (rule : XPathRule)
    (css : String) (hfuel : 0 < fuel) (hfe : rule.for_each_item = none)
    (het : rule.extract_type = .text ∨ rule.extract_type = .attribute ∨
      rule.extract_type = .html)
    (hcss : xpath_to_css_selector rule.xpath = .ok css)
    (hparse : d.selector_parses css = true) :
    process_rule fuel d rule = .ok (collapseValues (flat_rule_values d rule css)) := by
  obtain ⟨n, rfl⟩ : ∃ n, fuel = n + 1 :=
    ⟨fuel - 1, by omega⟩
  have hobj : rule.extract_type ≠ .object := by
    rcases het with h | h | h <;> simp [h]
  simp only [process_rule, hfe]
  rcases het with h | h | h <;>
    simp [h, hcss, flat_rule_values, hparse] <;> rfl

theorem collapseValues_cases (vals : List Json) :
    (vals = [] → collapseValues vals = .arr []) ∧
    (∀ v, vals = [v] → collapseValues vals = v) ∧
    (2 ≤ vals.length → collapseValues vals = .arr vals) := by
  refine ⟨fun h => by subst h; rfl, fun v h => by subst h; rfl, fun h => ?_⟩
  match vals with
  | [] => rfl
  | [v] => simp at h
  | a :: b :: t => rfl

/-! ## Day-range expansion (claim C5's core) -/

theorem foldl_skip_zero {β : Type} (g : β → Nat → β) :
    ∀ (l : List Nat) (acc : β),
      l.foldl (fun b i => if i = 0 then b else g b i) acc =
        (l.filter (fun i => i ≠ 0)).foldl g acc := by
  intro l
  induction l with
  | nil => intro acc; rfl
  | cons a as ih =>
    intro acc
    by_cases ha : a = 0 <;> simp [ha, List.filter_cons, ih]

/-- The entry list day-range expansion produces from a `day_items`
object: one entry per non-zero day in `[N, M]`, keyed by its decimal
string, valued by the `day_items` entry or an empty array. -/
def day_range_entries (N M : Nat) (dis : List (String × Json)) :
    List (String × Json) :=
  ((List.range' N (M + 1 - N)).filter (fun i => i ≠ 0)).map
    (fun i => (toString i, (mapGet dis (toString i)).getD (.arr [])))

theorem fold_day_range (dis : List (String × Json)) (l : List Nat)
    (acc : List (String × Json)) :
    l.foldl (fun result i =>
      if i = 0 then result
      else
        match mapGet dis (toString i) with
        | some dayItems => mapInsert result (toString i) dayItems
        | none => mapInsert result (toString i) (Json.arr [])) acc
    = ((l.filter (fun i => i ≠ 0)).map
        (fun i => (toString i, (mapGet dis (toString i)).getD (.arr [])))).foldl
        (fun r p => mapInsert r p.1 p.2) acc := by
  rw [foldl_skip_zero, List.foldl_map]
  apply List.foldl_ext
  intro b i _
  cases h : mapGet dis (toString i) <;> simp [h, Option.getD]

theorem process_day_range_with_items_spec (raw : RawDataStore)
    (N M : Nat) (dis : List (String × Json))
    (hdi : mapGet raw "day_items" = some (.obj dis))
    (hnodup : ((day_range_entries N M dis).map Prod.fst).Nodup) :
    process_day_range_with_items raw N M = .ok (.obj (day_range_entries N M dis)) := by
  have hb : (mapGet raw "day_items").bind asObject = some dis := by rw [hdi]; rfl
  unfold process_day_range_with_items
  rw [hb]
  show Except.ok (Json.obj _) = _
  rw [fold_day_range]
  rw [foldl_mapInsert_eq_append
    (by simpa [day_range_entries, List.map_map] using hnodup)]
  rfl

theorem process_template_entry_day_range
    (recur : Json → RawDataStore → Except String Json)
    (raw : RawDataStore) (d : HtmlDoc) (c : Clock)
    (acc : List (String × Json)) (k : String) (x : Json) (N M : Nat)
    (dis : List (String × Json))
    (hk : parseDayRangeKey k = some (N, M))
    (hdi : mapGet raw "day_items" = some (.obj dis))
    (hnodup : ((day_range_entries N M dis).map Prod.fst).Nodup) :
    process_template_entry recur raw d c acc (k, x) =
      .ok ((day_range_entries N M dis).foldl
        (fun r p => mapInsert r p.1 p.2) acc) := by
  have hkm : ¬(k = "{months}") := by
    intro he
    rw [he] at hk
    exact Option.noConfusion ((by decide : parseDayRangeKey "{months}" = none) ▸ hk)
  unfold process_template_entry
  dsimp only
  simp only [if_neg hkm, hk]
  rw [process_day_range_with_items_spec raw N M dis hdi hnodup]
  rfl

theorem day_range_template_spec (fuel : Nat) (k : String) (x : Json)
    (raw : RawDataStore) (d : HtmlDoc) (c : Clock) (N M : Nat)
    (dis : List (String × Json))
    (hk : parseDayRangeKey k = some (N, M))
    (hdi : mapGet raw "day_items" = some (.obj dis))
    (hfuel : 0 < fuel)
    (hnodup : ((day_range_entries N M dis).map Prod.fst).Nodup) :
    process_hierarchical_template fuel (.obj [(k, x)]) raw d c =
      .ok (.obj (day_range_entries N M dis)) := by
  obtain ⟨n, rfl⟩ : ∃ n, fuel = n + 1 := ⟨fuel - 1, by omega⟩
  simp only [process_hierarchical_template, List.foldlM_cons, List.foldlM_nil]
  rw [process_template_entry_day_range _ raw d c [] k x N M dis hk hdi hnodup]
  rw [foldl_mapInsert_eq_append (by simpa using hnodup)]
  rfl

/-! ## Paired-array zipping (claim C7's core) -/

theorem paired_zip_fold (la lb : List String) (acc : List Json) :
    ((la.map Json.str).zip (lb.map Json.str)).foldl (fun res p =>
      match p with
      | (.str keyStr, .str valueStr) =>
        res ++ [Json.obj [(sTrim keyStr, Json.str (sTrim valueStr))]]
      | _ => res) acc
    = acc ++ (la.zip lb).map
        (fun p => Json.obj [(sTrim p.1, Json.str (sTrim p.2))]) := by
  induction la generalizing lb acc with
  | nil => simp
  | cons a as ih =>
    cases lb with
    | nil => simp
    | cons b bs => simp [ih]

theorem process_paired_data_spec (kT vT : String) (raw : RawDataStore)
    (la lb : List String)
    (hka : mapGet raw (stripBraces kT) = some (.arr (la.map Json.str)))
    (hvb : mapGet raw (stripBraces vT) = some (.arr (lb.map Json.str))) :
    process_paired_data kT vT raw =
      .ok (.arr ((la.zip lb).map
        (fun p => Json.obj [(sTrim p.1, Json.str (sTrim p.2))]))) := by
  have ha : ((mapGet raw (stripBraces kT)).bind asArray).getD [] = la.map Json.str := by
    rw [hka]; rfl
  have hb : ((mapGet raw (stripBraces vT)).bind asArray).getD [] = lb.map Json.str := by
    rw [hvb]; rfl
  unfold process_paired_data
  dsimp only
  rw [ha, hb, paired_zip_fold]
  rfl

theorem paired_template_spec (fuel : Nat) (pk pv : String)
    (raw : RawDataStore) (d : HtmlDoc) (c : Clock) (la lb : List String)
    (hpk1 : sStartsWith pk "\x7b" = true) (hpk2 : sEndsWith pk "\x7d" = true)
    (hpv1 : sStartsWith pv "\x7b" = true) (hpv2 : sEndsWith pv "\x7d" = true)
    (hka : mapGet raw (stripBraces pk) = some (.arr (la.map Json.str)))
    (hvb : mapGet raw (stripBraces pv) = some (.arr (lb.map Json.str)))
    (hfuel : 0 < fuel) :
    process_hierarchical_template fuel (.arr [.obj [(pk, .str pv)]]) raw d c =
      .ok (.arr ((la.zip lb).map
        (fun p => Json.obj [(sTrim p.1, Json.str (sTrim p.2))]))) := by
  obtain ⟨n, rfl⟩ : ∃ n, fuel = n + 1 := ⟨fuel - 1, by omega⟩
  simp only [process_hierarchical_template]
  rw [if_neg (by simp [asStr])]
  simp only [List.length_cons, List.length_nil, List.head?, if_true]
  rw [show (some (Json.obj [(pk, Json.str pv)])).bind asObject
      = some [(pk, Json.str pv)] from rfl]
  simp only [asStr]
  rw [hpk1, hpk2, hpv1, hpv2, if_pos (by decide)]
  exact process_paired_data_spec pk pv raw la lb hka hvb

/-! ## Literal templates project to themselves (claim C9's core) -/

/-- A string of the placeholder shape `{…}` — the trigger of every
rewriting branch of the projector. -/
def isPlaceholderShape (s : String) : Bool :=
  sStartsWith s "\x7b" && sEndsWith s "\x7d"

/-- No key occurs twice. -/
def keysFresh : List String → Bool
  | [] => true
  | k :: ks => !(decide (k ∈ ks)) && keysFresh ks

theorem keysFresh_iff_nodup (l : List String) :
    keysFresh l = true ↔ l.Nodup := by
  induction l with
  | nil => simp [keysFresh]
  | cons k ks ih => simp [keysFresh, List.nodup_cons, ih, and_comm]

/-- A literal template: no placeholder-shaped string anywhere — neither
as a value nor as an object key — and, as in any JSON text, no repeated
object keys. -/
def literal_template : Nat → Json → Bool
  | 0, _ => false
  | fuel + 1, t =>
    match t with
    | .str s => !(isPlaceholderShape s)
    | .arr xs => xs.all (literal_template fuel)
    | .obj es => keysFresh (es.map Prod.fst) &&
        es.all (fun p => !(isPlaceholderShape p.1) && literal_template fuel p.2)
    | _ => true

theorem dropLit_append_isSome (p q cs : List Char)
    (h : (dropLit (p ++ q) cs).isSome = true) : (dropLit p cs).isSome = true := by
  induction p generalizing cs with
  | nil => simp [dropLit]
  | cons a ps ih =>
    cases cs with
    | nil => simp [dropLit] at h
    | cons c cs' =>
      simp only [List.cons_append, dropLit] at h ⊢
      by_cases hac : a = c
      · rw [if_pos hac] at h ⊢
        exact ih cs' h
      · rw [if_neg hac] at h
        simp at h

theorem startsWith_days_braced (k : String)
    (h : sStartsWith k "\x7bdays" = true) : sStartsWith k "\x7b" = true := by
  have : chars "\x7bdays" = chars "\x7b" ++ chars "days" := rfl
  unfold sStartsWith startsWithL at h ⊢
  rw [this] at h
  exact dropLit_append_isSome _ _ _ h

theorem parseDayRangeKey_not_braced (k : String)
    (h : isPlaceholderShape k = false) : parseDayRangeKey k = none := by
  unfold parseDayRangeKey
  by_cases h1 : sStartsWith k "\x7bdays" = true
  · have h2 : sStartsWith k "\x7b" = true := startsWith_days_braced k h1
    unfold isPlaceholderShape at h
    rw [h2] at h
    simp at h
    rw [h1, h]
    simp
  · simp at h1
    rw [h1]
    simp

theorem parseSingleDayKey_not_braced (k : String)
    (h : isPlaceholderShape k = false) : parseSingleDayKey k = none := by
  unfold parseSingleDayKey
  by_cases h1 : sStartsWith k "\x7bdays" = true
  · have h2 : sStartsWith k "\x7b" = true := startsWith_days_braced k h1
    unfold isPlaceholderShape at h
    rw [h2] at h
    simp at h
    rw [h1, h]
    simp
  · simp at h1
    rw [h1]
    simp

theorem ptv_not_braced (key : String) (raw : RawDataStore) (clock : Clock)
    (h : isPlaceholderShape key = false) :
    process_template_variable key raw clock = .ok key := by
  unfold process_template_variable
  unfold isPlaceholderShape at h
  rw [h]
  rfl

theorem key_not_months (key : String) (h : isPlaceholderShape key = false) :
    ¬(key = "{months}") := by
  intro he
  rw [he] at h
  exact absurd h (by decide)

theorem process_template_entry_general
    (recur : Json → RawDataStore → Except String Json)
    (raw : RawDataStore) (d : HtmlDoc) (c : Clock)
    (acc : List (String × Json)) (k : String) (v : Json) (pv : Json)
    (hkey : isPlaceholderShape k = false) (hrec : recur v raw = .ok pv) :
    process_template_entry recur raw d c acc (k, v) = .ok (mapInsert acc k pv) := by
  have hkm := key_not_months k hkey
  unfold process_template_entry
  dsimp only
  simp only [if_neg hkm, parseDayRangeKey_not_braced k hkey,
    parseSingleDayKey_not_braced k hkey]
  rw [ptv_not_braced k raw c hkey, ok_bind, hrec]
  rfl

theorem json_sizeOf_pos (t : Json) : 0 < sizeOf t := by
  cases t <;> simp

theorem literal_roundtrip :
    ∀ (fuel : Nat) (t : Json) (raw : RawDataStore) (d : HtmlDoc) (c : Clock),
      literal_template fuel t = true → sizeOf t < fuel →
      process_hierarchical_template fuel t raw d c = .ok t := by
  intro fuel
  induction fuel with
  | zero => intro t raw d c _ h; omega
  | succ n ih =>
    intro t raw d c hlit hsz
    match t with
    | .null => rfl
    | .bool b => rfl
    | .num m => rfl
    | .str s =>
      simp only [literal_template, Bool.not_eq_true'] at hlit
      unfold isPlaceholderShape at hlit
      simp only [process_hierarchical_template]
      rw [hlit]
      rfl
    | .arr elems =>
      have hall : ∀ x ∈ elems, literal_template n x = true := by
        simpa only [literal_template, List.all_eq_true] using hlit
      have hrec : ∀ x ∈ elems, process_hierarchical_template n x raw d c = .ok x := by
        intro x hx
        have := sizeOf_elem_lt_arr hx
        exact ih x raw d c (hall x hx) (by omega)
      have hgen : (do
          let rs ← mapEx (fun item =>
            process_hierarchical_template n item raw d c) elems
          pure (Json.arr rs)) = (.ok (.arr elems) : Except String Json) := by
        rw [mapEx_id_of_forall hrec]
        rfl
      have hn1 : ∃ m, n = m + 1 := by
        refine ⟨n - 1, ?_⟩
        have h1 := json_sizeOf_pos (Json.arr elems)
        have h2 : sizeOf (Json.arr elems) = 1 + sizeOf elems := by
          simp [Json.arr.sizeOf_spec]
        have h3 : 0 < sizeOf elems := by
          cases elems <;> simp
        omega
      have hni : ¬(elems.length = 1 ∧ (elems.head?.bind asStr) = some "{items}") := by
        rintro ⟨h1, h2⟩
        obtain ⟨x, rfl⟩ := List.length_eq_one.mp h1
        have h2x : asStr x = some "{items}" := h2
        cases x <;> simp only [asStr, Option.some.injEq, reduceCtorEq] at h2x
        case str s0 =>
          have hx := hall (.str s0) (by simp)
          rw [h2x] at hx
          obtain ⟨m, rfl⟩ := hn1
          simp only [literal_template, Bool.not_eq_true'] at hx
          exact absurd hx (by decide)
      simp only [process_hierarchical_template]
      rw [if_neg hni]
      split
      case _ pk pv heq =>
        have h1 : elems.length = 1 := by
          by_contra hne
          rw [if_neg hne] at heq
          exact Option.noConfusion heq
        obtain ⟨x, rfl⟩ := List.length_eq_one.mp h1
        rw [if_pos h1] at heq
        have heq2 : asObject x = some [(pk, pv)] := heq
        cases x <;> simp only [asObject, Option.some.injEq, reduceCtorEq] at heq2
        case obj oes =>
          subst heq2
          obtain ⟨m, rfl⟩ := hn1
          have hx := hall (.obj [(pk, pv)]) (by simp)
          simp only [literal_template, Bool.and_eq_true, List.all_eq_true] at hx
          have hpk : isPlaceholderShape pk = false := by
            have := hx.2 (pk, pv) (by simp)
            simpa only [Bool.and_eq_true, Bool.not_eq_true'] using this.1
          split
          case _ pvs heq3 =>
            rw [if_neg ?_]
            · exact hgen
            · intro hcond
              simp only [Bool.and_eq_true] at hcond
              have h4 : (sStartsWith pk "\x7b" && sEndsWith pk "\x7d") = true := by
                simp [hcond.1.1.1, hcond.1.1.2]
              unfold isPlaceholderShape at hpk
              rw [hpk] at h4
              exact Bool.noConfusion h4
          case _ heq3 => exact hgen
      case _ hne => exact hgen
    | .obj entries =>
      simp only [literal_template, Bool.and_eq_true, List.all_eq_true] at hlit
      obtain ⟨hfresh, hprops⟩ := hlit
      have hkeys : ∀ p ∈ entries, isPlaceholderShape p.1 = false := by
        intro p hp
        have := hprops p hp
        simp only [Bool.and_eq_true, Bool.not_eq_true'] at this
        exact this.1
      have hrec : ∀ p ∈ entries,
          process_hierarchical_template n p.2 raw d c = .ok p.2 := by
        intro p hp
        have hl := hprops p hp
        simp only [Bool.and_eq_true, Bool.not_eq_true'] at hl
        have hs : sizeOf p.2 < sizeOf (Json.obj entries) := by
          obtain ⟨k, v⟩ := p
          exact sizeOf_val_lt_obj hp
        exact ih p.2 raw d c hl.2 (by omega)
      have hnd : (entries.map Prod.fst).Nodup := (keysFresh_iff_nodup _).mp hfresh
      simp only [process_hierarchical_template]
      have key : ∀ (es : List (String × Json)) (acc : List (String × Json)),
          (∀ p ∈ es, p ∈ entries) →
          (acc.map Prod.fst ++ es.map Prod.fst).Nodup →
          es.foldlM (process_template_entry
            (fun v r => process_hierarchical_template n v r d c) raw d c) acc
            = .ok (acc ++ es) := by
        intro es
        induction es with
        | nil =>
          intro acc _ _
          simp only [List.foldlM_nil, List.append_nil]
          rfl
        | cons p rest ihes =>
          intro acc hmem hnodup
          obtain ⟨k, v⟩ := p
          have hp := hmem (k, v) (List.mem_cons_self _ _)
          have hfreshk : k ∉ acc.map Prod.fst := fun hmem2 =>
            (List.nodup_append.mp hnodup).2.2 hmem2 (by simp)
          rw [List.foldlM_cons,
            process_template_entry_general _ raw d c acc k v v
              (hkeys (k, v) hp) (hrec (k, v) hp),
            ok_bind, mapInsert_of_not_mem v hfreshk,
            ihes (acc ++ [(k, v)])
              (fun q hq => hmem q (List.mem_cons_of_mem _ hq))
              (by simpa [List.append_assoc] using hnodup)]
          simp
      rw [key entries [] (fun p hp => hp) (by simpa using hnd)]
      rfl

/-! ## Clock dependence of the projector (claim C6's core)

The source reads `chrono::Utc::now()` ambiently inside
`process_hierarchical_template` and `process_template_variable`; the
model threads the reading as the `Clock` argument.  A template that
nowhere contains one of the four reserved `{current…}` strings projects
identically under any two clock readings. -/

/-- Does this exact string trigger a reserved clock identifier? -/
def usesClock (s : String) : Bool :=
  isPlaceholderShape s &&
    (stripBraces s = "currentYear" || stripBraces s = "currentMonth" ||
     stripBraces s = "currentDay" || stripBraces s = "currentDate")

/-- No string of the template — value or object key — is one of the four
reserved clock placeholders. -/
def clock_free : Nat → Json → Bool
  | 0, _ => false
  | fuel + 1, t =>
    match t with
    | .str s => !usesClock s
    | .arr xs => xs.all (clock_free fuel)
    | .obj es => es.all (fun p => !usesClock p.1 && clock_free fuel p.2)
    | _ => true

theorem usesClock_false_cases (s : String) (h : usesClock s = false)
    (hb : (sStartsWith s "\x7b" && sEndsWith s "\x7d") = true) :
    ¬(stripBraces s = "currentYear") ∧ ¬(stripBraces s = "currentMonth") ∧
    ¬(stripBraces s = "currentDay") ∧ ¬(stripBraces s = "currentDate") := by
  unfold usesClock isPlaceholderShape at h
  rw [hb] at h
  simp only [Bool.true_and, Bool.or_eq_false_iff, decide_eq_false_iff_not] at h
  exact ⟨h.1.1.1, h.1.1.2, h.1.2, h.2⟩

theorem ptv_clock_irrelevant (key : String) (raw : RawDataStore)
    (c1 c2 : Clock) (h : usesClock key = false) :
    process_template_variable key raw c1 = process_template_variable key raw c2 := by
  unfold process_template_variable
  by_cases hb : (sStartsWith key "\x7b" && sEndsWith key "\x7d") = true
  · obtain ⟨h1, h2, h3, h4⟩ := usesClock_false_cases key h hb
    simp only [hb, if_true]
    rw [if_neg h1, if_neg h2, if_neg h3, if_neg h4,
      if_neg h1, if_neg h2, if_neg h3, if_neg h4]
  · simp only [Bool.not_eq_true] at hb
    simp [hb]

theorem process_template_entry_clock_irrelevant
    (recur1 recur2 : Json → RawDataStore → Except String Json)
    (raw : RawDataStore) (d : HtmlDoc) (c1 c2 : Clock)
    (acc : List (String × Json)) (entry : String × Json)
    (hkey : usesClock entry.1 = false)
    (hrec : ∀ r, recur1 entry.2 r = recur2 entry.2 r) :
    process_template_entry recur1 raw d c1 acc entry =
      process_template_entry recur2 raw d c2 acc entry := by
  obtain ⟨k, v⟩ := entry
  unfold process_template_entry
  dsimp only
  cases hm : (if k = "{months}" then (mapGet raw "months").bind asArray
      else none) with
  | some ms =>
    simp only [hm]
    rw [foldlM_congr ?_ []]
    intro mv hmv acc'
    dsimp only
    cases hs : asStr mv with
    | some monthStr => simp only [hs, hrec]
    | none => simp only [hs]
  | none =>
    simp only [hm]
    cases hdr : parseDayRangeKey k with
    | some se => rfl
    | none =>
      cases hsd : parseSingleDayKey k with
      | some idx =>
        rw [ptv_clock_irrelevant k raw c1 c2 hkey]
      | none =>
        rw [ptv_clock_irrelevant k raw c1 c2 hkey, hrec raw]

theorem clock_free_irrelevant :
    ∀ (fuel : Nat) (t : Json) (raw : RawDataStore) (d : HtmlDoc) (c1 c2 : Clock),
      clock_free fuel t = true → sizeOf t < fuel →
      process_hierarchical_template fuel t raw d c1 =
        process_hierarchical_template fuel t raw d c2 := by
  intro fuel
  induction fuel with
  | zero => intro t raw d c1 c2 _ h; omega
  | succ n ih =>
    intro t raw d c1 c2 hcf hsz
    match t with
    | .null => rfl
    | .bool b => rfl
    | .num m => rfl
    | .str s =>
      simp only [clock_free, Bool.not_eq_true'] at hcf
      simp only [process_hierarchical_template]
      by_cases hb : (sStartsWith s "\x7b" && sEndsWith s "\x7d") = true
      · obtain ⟨h1, h2, h3, h4⟩ := usesClock_false_cases s hcf hb
        simp only [hb, if_true]
        rw [if_neg h1, if_neg h2, if_neg h3, if_neg h4,
          if_neg h1, if_neg h2, if_neg h3, if_neg h4]
      · simp only [Bool.not_eq_true] at hb
        simp [hb]
    | .arr elems =>
      have hall : ∀ x ∈ elems, clock_free n x = true := by
        simpa only [clock_free, List.all_eq_true] using hcf
      have hrec : ∀ x ∈ elems,
          process_hierarchical_template n x raw d c1 =
          process_hierarchical_template n x raw d c2 := by
        intro x hx
        have := sizeOf_elem_lt_arr hx
        exact ih x raw d c1 c2 (hall x hx) (by omega)
      simp only [process_hierarchical_template]
      by_cases hc : elems.length = 1 ∧ (elems.head?.bind asStr) = some "{items}"
      · simp [hc]
      · rw [if_neg hc, if_neg hc]
        have hgen : (do
            let rs ← mapEx (fun item =>
              process_hierarchical_template n item raw d c1) elems
            pure (Json.arr rs)) = (do
            let rs ← mapEx (fun item =>
              process_hierarchical_template n item raw d c2) elems
            pure (Json.arr rs)) := by
          rw [mapEx_congr hrec]
        cases hm : (if elems.length = 1 then elems.head?.bind asObject
            else none) with
        | some oes =>
          match oes with
          | [] => exact hgen
          | [(pk, pv)] =>
            cases hs : asStr pv with
            | some pvs =>
              by_cases hbr : (sStartsWith pk "\x7b" && sEndsWith pk "\x7d" &&
                  sStartsWith pvs "\x7b" && sEndsWith pvs "\x7d") = true
              · simp only [Bool.and_eq_true] at hbr
                simp [hs, hbr.1.1.1, hbr.1.1.2, hbr.1.2, hbr.2]
              · simp only [Bool.not_eq_true] at hbr
                simp only [hs, hbr, if_false]
                exact hgen
            | none =>
              simp only [hs]
              exact hgen
          | p1 :: p2 :: rest => exact hgen
        | none => exact hgen
    | .obj entries =>
      have hall : ∀ p ∈ entries, usesClock p.1 = false ∧ clock_free n p.2 = true := by
        intro p hp
        have := hcf
        simp only [clock_free, List.all_eq_true] at this
        have hq := this p hp
        simp only [Bool.and_eq_true, Bool.not_eq_true'] at hq
        exact hq
      simp only [process_hierarchical_template]
      rw [foldlM_congr ?_ []]
      intro p hp acc
      apply process_template_entry_clock_irrelevant _ _ raw d c1 c2 acc p
        (hall p hp).1
      intro r
      have hs : sizeOf p.2 < sizeOf (Json.obj entries) := by
        obtain ⟨k, v⟩ := p
        exact sizeOf_val_lt_obj hp
      exact ih p.2 r d c1 c2 (hall p hp).2 (by omega)

/-! ## Month expansion ordering (claim C8's core) -/

theorem mem_orderedInsertMonth {a x : Json} {l : List Json} :
    a ∈ orderedInsertMonth x l ↔ a = x ∨ a ∈ l := by
  induction l with
  | nil => simp [orderedInsertMonth]
  | cons y ys ih =>
    by_cases hxy : monthSortKey x ≤ monthSortKey y
    · simp [orderedInsertMonth, hxy]
    · simp [orderedInsertMonth, hxy, ih]
      tauto

theorem orderedInsertMonth_perm (x : Json) (l : List Json) :
    (orderedInsertMonth x l).Perm (x :: l) := by
  induction l with
  | nil => exact List.Perm.refl _
  | cons y ys ih =>
    by_cases hxy : monthSortKey x ≤ monthSortKey y
    · simp [orderedInsertMonth, hxy]
    · simp only [orderedInsertMonth, if_neg hxy]
      exact (ih.cons y).trans (List.Perm.swap x y ys)

theorem sortMonths_perm (l : List Json) : (sortMonths l).Perm l := by
  induction l with
  | nil => exact List.Perm.refl _
  | cons x xs ih => exact (orderedInsertMonth_perm x (sortMonths xs)).trans (ih.cons x)

theorem pairwise_orderedInsertMonth (x : Json) (l : List Json)
    (h : l.Pairwise (fun a b => monthSortKey a ≤ monthSortKey b)) :
    (orderedInsertMonth x l).Pairwise
      (fun a b => monthSortKey a ≤ monthSortKey b) := by
  induction l with
  | nil => simp [orderedInsertMonth]
  | cons y ys ih =>
    rw [List.pairwise_cons] at h
    by_cases hxy : monthSortKey x ≤ monthSortKey y
    · rw [orderedInsertMonth, if_pos hxy, List.pairwise_cons]
      refine ⟨?_, List.pairwise_cons.mpr h⟩
      intro b hb
      rcases List.mem_cons.mp hb with rfl | hb'
      · exact hxy
      · exact le_trans hxy (h.1 b hb')
    · rw [orderedInsertMonth, if_neg hxy, List.pairwise_cons]
      refine ⟨?_, ih h.2⟩
      intro b hb
      rcases mem_orderedInsertMonth.mp hb with rfl | hb'
      · omega
      · exact h.1 b hb'

theorem sortMonths_sorted (l : List Json) :
    (sortMonths l).Pairwise (fun a b => monthSortKey a ≤ monthSortKey b) := by
  induction l with
  | nil => simp [sortMonths]
  | cons x xs ih => exact pairwise_orderedInsertMonth x (sortMonths xs) ih

/-- The month-name key a month entry contributes during expansion. -/
def monthKeyName (m : Json) : String := monthNameOf ((asStr m).getD "")

theorem foldlM_month_loop
    (recur : Json → RawDataStore → Except String Json)
    (value : Json) (raw : RawDataStore) (d : HtmlDoc)
    (hok : ∀ r, ∃ v, recur value r = .ok v) :
    ∀ (ms : List Json) (acc : List (String × Json)),
      (∀ m ∈ ms, (asStr m).isSome = true) →
      ∃ res, (ms.foldlM (fun (acc : List (String × Json)) monthValue => do
          match asStr monthValue with
          | some monthStr => do
            let processedValue ← recur value
              (month_scoped_raw raw d (monthNameOf monthStr))
            pure (acc ++ [(monthNameOf monthStr, processedValue)])
          | none => pure acc) acc) = .ok res ∧
        res.map Prod.fst = acc.map Prod.fst ++ ms.map monthKeyName := by
  intro ms
  induction ms with
  | nil => exact fun acc _ => ⟨acc, rfl, by simp⟩
  | cons m rest ih =>
    intro acc hstr
    obtain ⟨s, hs⟩ := Option.isSome_iff_exists.mp (hstr m (List.mem_cons_self _ _))
    obtain ⟨v, hv⟩ := hok (month_scoped_raw raw d (monthNameOf s))
    obtain ⟨res, hres, hkeys⟩ := ih (acc ++ [(monthNameOf s, v)])
      (fun b hb => hstr b (List.mem_cons_of_mem _ hb))
    refine ⟨res, ?_, ?_⟩
    · rw [List.foldlM_cons]
      simp only [hs, hv, ok_bind]
      exact hres
    · rw [hkeys]
      simp [monthKeyName, hs]

theorem process_template_entry_months
    (recur : Json → RawDataStore → Except String Json)
    (raw : RawDataStore) (d : HtmlDoc) (c : Clock)
    (acc : List (String × Json)) (sub : Json) (ms : List Json)
    (hmr : mapGet raw "months" = some (.arr ms))
    (hstr : ∀ m ∈ ms, (asStr m).isSome = true)
    (hok : ∀ r, ∃ v, recur sub r = .ok v) :
    ∃ mrs : List (String × Json),
      process_template_entry recur raw d c acc ("{months}", sub) =
        .ok (mrs.foldl (fun r p => mapInsert r p.1 p.2) acc) ∧
      mrs.map Prod.fst = (sortMonths ms).map monthKeyName := by
  have hb : (if "{months}" = "{months}"
      then (mapGet raw "months").bind asArray else none) = some ms := by
    rw [if_pos rfl, hmr]
    rfl
  unfold process_template_entry
  dsimp only
  rw [hb]
  dsimp only
  have hstr' : ∀ m ∈ sortMonths ms, (asStr m).isSome = true :=
    fun m hm => hstr m ((sortMonths_perm ms).mem_iff.mp hm)
  obtain ⟨res, hres, hkeys⟩ :=
    foldlM_month_loop recur sub raw d hok (sortMonths ms) [] hstr'
  refine ⟨res, ?_, by simpa using hkeys⟩
  rw [hres]
  rfl

/-- The key list of a successful object projection. -/
def resultKeys : Except String Json → Option (List String)
  | .ok (.obj es) => some (es.map Prod.fst)
  | _ => none

/-- The leading month-name token of a month entry, when the entry is a
string with at least one token. -/
def monthTok (m : Json) : Option String :=
  (asStr m).bind (fun s => (sSplitWs s).head?)

theorem monthSortKey_eq_monthIdx_keyName (m : Json)
    (h : (monthTok m).isSome = true) :
    monthSortKey m = monthIdx (monthKeyName m) := by
  obtain ⟨tok, htok⟩ := Option.isSome_iff_exists.mp h
  unfold monthTok at htok
  cases hs : asStr m with
  | none => rw [hs] at htok; exact Option.noConfusion htok
  | some s =>
    rw [hs] at htok
    simp only [Option.some_bind] at htok
    unfold monthSortKey monthKeyName monthNameOf
    rw [hs]
    simp [htok, Option.getD]

theorem months_template_spec (fuel : Nat) (sub : Json) (raw : RawDataStore)
    (d : HtmlDoc) (c : Clock) (ms : List Json)
    (hmr : mapGet raw "months" = some (.arr ms))
    (htok : ∀ m ∈ ms, (monthTok m).isSome = true)
    (hnodup : (ms.map monthKeyName).Nodup)
    (hsz : sizeOf (Json.obj [("{months}", sub)]) < fuel) :
    resultKeys (process_hierarchical_template fuel
        (.obj [("{months}", sub)]) raw d c)
      = some ((sortMonths ms).map monthKeyName) ∧
    ((sortMonths ms).map monthKeyName).Pairwise
      (fun a b => monthIdx a ≤ monthIdx b) := by
  obtain ⟨n, rfl⟩ : ∃ n, fuel = n + 1 := ⟨fuel - 1, by omega⟩
  have hstr : ∀ m ∈ ms, (asStr m).isSome = true := by
    intro m hm
    have := htok m hm
    unfold monthTok at this
    cases hs : asStr m with
    | none => rw [hs] at this; simp at this
    | some s => rfl
  have hsub : sizeOf sub < n := by
    have := sizeOf_val_lt_obj
      (show ("{months}", sub) ∈ [("{months}", sub)] from List.mem_cons_self _ _)
    omega
  have hok : ∀ r, ∃ v,
      process_hierarchical_template n sub r d c = .ok v :=
    fun r => process_hierarchical_template_total n sub r d c hsub
  obtain ⟨mrs, hmrs, hkeys⟩ :=
    process_template_entry_months
      (fun v r => process_hierarchical_template n v r d c) raw d c []
      sub ms hmr hstr hok
  have hsortednodup : ((sortMonths ms).map monthKeyName).Nodup :=
    (((sortMonths_perm ms).map monthKeyName).nodup_iff).mpr hnodup
  have hmrsnodup : (mrs.map Prod.fst).Nodup := by rw [hkeys]; exact hsortednodup
  constructor
  · simp only [process_hierarchical_template, List.foldlM_cons, List.foldlM_nil]
    rw [hmrs]
    show resultKeys (.ok (.obj (mrs.foldl (fun r p => mapInsert r p.1 p.2) [])))
      = _
    rw [foldl_mapInsert_eq_append (by simpa using hmrsnodup)]
    simp only [List.nil_append, resultKeys]
    rw [hkeys]
  · have hsorted := sortMonths_sorted ms
    rw [List.pairwise_map]
    refine hsorted.imp_of_mem ?_
    intro a b ha hb hr
    have hta := htok a ((sortMonths_perm ms).mem_iff.mp ha)
    have htb := htok b ((sortMonths_perm ms).mem_iff.mp hb)
    rw [← monthSortKey_eq_monthIdx_keyName a hta,
      ← monthSortKey_eq_monthIdx_keyName b htb]
    exact hr

/-! ## Concrete fixtures for witnesses and counterexamples -/

/-- A fixed clock reading. -/
def fixedClock : Clock := ⟨"2025", "10", "12", "2025-10-12"⟩

/-- A document with no elements, every selector parsing. -/
def emptyDoc : HtmlDoc := ⟨[], fun _ => true⟩

/-- A flat rule with no nesting. -/
def flatRule (n x : String) (et : ExtractType) : XPathRule :=
  .mk n x et none none none none none none

/-- A document where `div` matches two elements with texts `a`, `b`. -/
def twoElemDoc : HtmlDoc :=
  ⟨[("div", [.mk "a" [] "" [], .mk "b" [] "" []])], fun _ => true⟩

/-- A `months` rule with a `for-each-item`, whose own xpath converts to
the unparseable selector `bad[`. -/
def monthsSpecialRule : XPathRule :=
  .mk "months" "bad[" .text none none none none
    (some (flatRule "days" "d" .text)) none

/-- A document where only the selector `d` parses. -/
def monthsSpecialDoc : HtmlDoc := ⟨[("d", [])], fun s => s = "d"⟩

/-- A configuration holding only the months-special rule. -/
def monthsSpecialConfig : XPathConfig := ⟨"cfg", none, none, [monthsSpecialRule]⟩

/-- A configuration with a present but empty output sample. -/
def emptySampleConfig : XPathConfig := ⟨"cfg2", none, some [], []⟩

/-! ## The claims -/

/-- C1 (amended): for a flat Text/Attribute/Html rule whose selector
translates and parses, `process_rule` collapses the per-match value list
by cardinality — zero collected values give the EMPTY ARRAY (not `null`
as the claim states), exactly one gives the scalar, two or more give the
array in document order. -/
theorem claim_C1 (fuel : Nat) (d : HtmlDoc) (rule : XPathRule) (css : String)
    (hfuel : 0 < fuel) (hfe : rule.for_each_item = none)
    (het : rule.extract_type = .text ∨ rule.extract_type = .attribute ∨
      rule.extract_type = .html)
    (hcss : xpath_to_css_selector rule.xpath = .ok css)
    (hparse : d.selector_parses css = true) :
    (flat_rule_values d rule css = [] →
      process_rule fuel d rule = .ok (.arr [])) ∧
    (∀ v, flat_rule_values d rule css = [v] →
      process_rule fuel d rule = .ok v) ∧
    (2 ≤ (flat_rule_values d rule css).length →
      process_rule fuel d rule = .ok (.arr (flat_rule_values d rule css))) := by
  have h := process_rule_collapse fuel d rule css hfuel hfe het hcss hparse
  obtain ⟨h1, h2, h3⟩ := collapseValues_cases (flat_rule_values d rule css)
  refine ⟨fun he => ?_, fun v hv => ?_, fun hl => ?_⟩
  · rw [h, h1 he]
  · rw [h, h2 v hv]
  · rw [h, h3 hl]

/-- C1 witness: a Text rule with two matches yields the two trimmed
texts as an array, via the collapse theorem. -/
theorem claim_C1_witness :
    process_rule 1 twoElemDoc (flatRule "r" "div" .text)
      = .ok (.arr [.str "a", .str "b"]) := by
  have h := (claim_C1 1 twoElemDoc (flatRule "r" "div" .text) "div"
    (by decide) rfl (Or.inl rfl) rfl rfl).2.2 (by decide)
  exact h.trans (by rfl)

/-- C1 counterexample: with zero selector matches a Text rule evaluates
to the empty array, not to `null` as the claim states. -/
theorem claim_C1_counterexample :
    process_rule 1 emptyDoc (flatRule "r" "div" .text) = .ok (.arr []) ∧
    (Json.arr [] ≠ Json.null) :=
  ⟨rfl, fun h => Json.noConfusion h⟩

/-- C2 (amended): the selector translator never rejects an expression —
every return site of `xpath_to_css_selector` is `Ok`, so any path
expression, supported or not, yields a best-effort CSS string; an
unsupported construct is never answered with an "unsupported construct"
error (a mis-translated selector can only fail later, at CSS-parse time,
as a per-rule error). -/
theorem claim_C2 :
    ∀ xpath : String, ∃ css, xpath_to_css_selector xpath = .ok css := by
  intro x
  unfold xpath_to_css_selector
  dsimp only
  by_cases h1 : sContains (sTrim x) patternTh = true
  · rw [if_pos h1]; exact ⟨_, rfl⟩
  · rw [if_neg h1]
    by_cases h2 : sContains (sTrim x) patternDayNum = true
    · rw [if_pos h2]; exact ⟨_, rfl⟩
    · rw [if_neg h2]
      by_cases h3 : sContains (sTrim x) patternRows = true
      · rw [if_pos h3]; exact ⟨_, rfl⟩
      · rw [if_neg h3]
        by_cases h4 : sContains (sTrim x) patternStocks = true
        · rw [if_pos h4]
          by_cases h5 : sEndsWith (sTrim x) "/text()" = true
          · rw [if_pos h5]; exact ⟨_, rfl⟩
          · rw [if_neg h5]; exact ⟨_, rfl⟩
        · rw [if_neg h4]; exact ⟨_, rfl⟩

/-- C2 counterexample: the unsupported `following-sibling` axis is not
rejected; the translator silently returns a CSS string. -/
theorem claim_C2_counterexample :
    xpath_to_css_selector "//div/following-sibling::span"
      = .ok "div following-sibling::span" ∧
    xpath_to_css_selector "//div/following-sibling::span"
      ≠ .error "unsupported construct" := by
  refine ⟨rfl, fun h => ?_⟩
  have h2 : (Except.ok "div following-sibling::span" : Except String String)
      = .error "unsupported construct" := h
  exact Except.noConfusion h2

/-- C3 (amended): per-rule failure isolation holds for every rule except
the months special path — for a rule list containing no rule named
`months` with a `for-each-item`, `process_rules` never aborts: it
returns the store holding each rule's value (or `null` on failure, under
its own name) and exactly the error messages of the failing rules, each
naming its rule, in order. -/
theorem claim_C3 (fuel : Nat) (d : HtmlDoc) (rules : List XPathRule)
    (h : ∀ r ∈ rules, ¬(r.name = "months" ∧ r.for_each_item.isSome)) :
    process_rules fuel d rules [] [] = .ok
      (rules.foldl
        (fun m r => mapInsert m r.name (rule_value_or_null fuel d r)) [],
       rules.filterMap (rule_error_entry fuel d)) := by
  simpa using process_rules_isolated fuel d rules h [] []

/-- C3 witness: an Object rule without children fails and contributes
one tagged error and a `null` value, while the following Text rule still
evaluates. -/
theorem claim_C3_witness :
    process_rules 1 twoElemDoc
      [flatRule "bad" "x" .object, flatRule "r" "div" .text] [] []
      = .ok ([("bad", .null), ("r", .arr [.str "a", .str "b"])],
        ["Error processing rule 'bad': Object extract type requires 'children' or 'fields'"]) := by
  have h := claim_C3 1 twoElemDoc
    [flatRule "bad" "x" .object, flatRule "r" "div" .text] ?_
  · exact h.trans (by rfl)
  · intro r hr
    rcases List.mem_cons.mp hr with rfl | hr2
    · simp [flatRule, XPathRule.name]
    · rcases List.mem_cons.mp hr2 with rfl | hr3
      · simp [flatRule, XPathRule.name]
      · cases hr3

/-- C3 counterexample: a rule named `months` with a `for-each-item`
whose own selector does not parse makes the whole run abort with a
fatal error instead of an isolated per-rule error. -/
theorem claim_C3_counterexample :
    process_html 2 monthsSpecialConfig monthsSpecialDoc fixedClock
      = some (.error "Invalid CSS selector") := rfl

/-- C4: template projection is total — for fuel exceeding the template's
size, `process_hierarchical_template` always returns `Ok`, and
`generate_structured_output` on a non-empty sample always returns a
result; every branch (including an unresolved placeholder) degrades to
a defined fallback. -/
theorem claim_C4 (fuel : Nat) (t : Json) (raw : RawDataStore) (d : HtmlDoc)
    (c : Clock) (h : sizeOf t < fuel) :
    (∃ v, process_hierarchical_template fuel t raw d c = .ok v) ∧
    ∀ ts, ∃ w, generate_structured_output fuel raw (t :: ts) d c
      = some (.ok w) := by
  obtain ⟨v, hv⟩ := process_hierarchical_template_total fuel t raw d c h
  refine ⟨⟨v, hv⟩, fun ts => ⟨.arr [v], ?_⟩⟩
  show (some (do
      let result ← process_hierarchical_template fuel t raw d c
      pure (Json.arr [result])) : Option (Except String Json)) = _
  rw [hv]
  rfl

/-- C4 witness: a template with an unresolved placeholder projects
without error. -/
theorem claim_C4_witness :
    (∃ v, process_hierarchical_template 10000
      (.obj [("k", .str "{missing}")]) [] emptyDoc fixedClock = .ok v) ∧
    ∀ ts, ∃ w, generate_structured_output 10000 []
      (.obj [("k", .str "{missing}")] :: ts) emptyDoc fixedClock
      = some (.ok w) :=
  claim_C4 10000 (.obj [("k", .str "{missing}")]) [] emptyDoc fixedClock
    (by decide)

/-- C5 (amended): day-range expansion as the claim states it — one
entry per non-zero integer of `[N, M]` keyed `toString i`, valued
`day_items[toString i]` or an empty array, the template's own key
discarded — holds PROVIDED the store's `day_items` key holds an object;
without `day_items` the code takes an even-split fallback over
`days`/`items` instead (see the counterexample). -/
theorem claim_C5 (fuel : Nat) (k : String) (x : Json) (raw : RawDataStore)
    (d : HtmlDoc) (c : Clock) (N M : Nat) (dis : List (String × Json))
    (hk : parseDayRangeKey k = some (N, M))
    (hdi : mapGet raw "day_items" = some (.obj dis))
    (hfuel : 0 < fuel)
    (hnodup : ((day_range_entries N M dis).map Prod.fst).Nodup) :
    process_hierarchical_template fuel (.obj [(k, x)]) raw d c
      = .ok (.obj (day_range_entries N M dis)) ∧
    (day_range_entries N M dis).map Prod.fst =
      ((List.range' N (M + 1 - N)).filter (fun i => i ≠ 0)).map
        (fun i => toString i) := by
  refine ⟨day_range_template_spec fuel k x raw d c N M dis hk hdi hfuel hnodup, ?_⟩
  simp [day_range_entries, List.map_map]

/-- C5 witness: `{days0-2}` over a store whose `day_items` holds only
day 1 expands to exactly the keys 1 and 2, day 0 skipped, day 2 an
empty array. -/
theorem claim_C5_witness :
    process_hierarchical_template 1 (.obj [("{days0-2}", .str "x")])
      [("day_items", .obj [("1", .arr [.str "A"])])] emptyDoc fixedClock
      = .ok (.obj [("1", .arr [.str "A"]), ("2", .arr [])]) := by
  have h := (claim_C5 1 "{days0-2}" (.str "x")
    [("day_items", .obj [("1", .arr [.str "A"])])] emptyDoc fixedClock
    0 2 [("1", .arr [.str "A"])] rfl rfl (by decide) (by decide)).1
  exact h.trans (by rfl)

/-- C5 counterexample: over a store WITHOUT a `day_items` object the
claim fails — `{days0-2}` projects to an empty object, not to entries
keyed 1 and 2. -/
theorem claim_C5_counterexample :
    process_hierarchical_template 1 (.obj [("{days0-2}", .str "x")])
      [] emptyDoc fixedClock = .ok (.obj []) ∧
    Json.obj [] ≠ Json.obj [("1", Json.arr []), ("2", Json.arr [])] := by
  refine ⟨rfl, fun h => ?_⟩
  have h2 := Json.obj.inj h
  exact List.noConfusion h2

/-- C6 (amended): projection is a pure function of template, data,
document and the clock reading; it is deterministic and clock-independent
for every template free of the reserved `{currentYear}`/`{currentMonth}`/
`{currentDay}`/`{currentDate}` strings.  The clock itself is read
ambiently (`chrono::Utc::now()` inside the projector), not injected, so
runs at different instants may differ on those reserved identifiers (see
the counterexample). -/
theorem claim_C6 (fuel : Nat) (t : Json) (raw : RawDataStore) (d : HtmlDoc)
    (c1 c2 : Clock) (hcf : clock_free fuel t = true) (hsz : sizeOf t < fuel) :
    process_hierarchical_template fuel t raw d c1 =
      process_hierarchical_template fuel t raw d c2 :=
  clock_free_irrelevant fuel t raw d c1 c2 hcf hsz

/-- C6 witness: a clock-free template projects identically under two
different clock readings. -/
theorem claim_C6_witness :
    process_hierarchical_template 10000 (.obj [("a", .str "{x}")]) []
      emptyDoc ⟨"2024", "1", "1", "2024-01-01"⟩ =
    process_hierarchical_template 10000 (.obj [("a", .str "{x}")]) []
      emptyDoc ⟨"2025", "6", "7", "2025-06-07"⟩ :=
  claim_C6 10000 (.obj [("a", .str "{x}")]) [] emptyDoc
    ⟨"2024", "1", "1", "2024-01-01"⟩ ⟨"2025", "6", "7", "2025-06-07"⟩
    (by decide) (by decide)

/-- C6 counterexample: with the template `{currentYear}` two invocations
whose ambient clock readings differ produce different outputs, so
determinism does not extend over the reserved clock identifiers. -/
theorem claim_C6_counterexample :
    process_hierarchical_template 1 (.str "{currentYear}") [] emptyDoc
      ⟨"2024", "1", "1", "2024-01-01"⟩ ≠
    process_hierarchical_template 1 (.str "{currentYear}") [] emptyDoc
      ⟨"2025", "1", "1", "2025-01-01"⟩ := by
  intro h
  have h2 : (Except.ok (Json.str "2024") : Except String Json)
      = .ok (.str "2025") := h
  have h3 := Json.str.inj (Except.ok.inj h2)
  exact absurd h3 (by decide)

/-- C7: paired-array zipping — the template `[{"{A}": "{B}"}]` over two
stored string arrays yields one single-entry object per index, both
components trimmed, up to the shorter length: exactly
`min` of the two lengths. -/
theorem claim_C7 (fuel : Nat) (pk pv : String) (raw : RawDataStore)
    (d : HtmlDoc) (c : Clock) (la lb : List String)
    (hpk1 : sStartsWith pk "\x7b" = true) (hpk2 : sEndsWith pk "\x7d" = true)
    (hpv1 : sStartsWith pv "\x7b" = true) (hpv2 : sEndsWith pv "\x7d" = true)
    (hka : mapGet raw (stripBraces pk) = some (.arr (la.map Json.str)))
    (hvb : mapGet raw (stripBraces pv) = some (.arr (lb.map Json.str)))
    (hfuel : 0 < fuel) :
    process_hierarchical_template fuel (.arr [.obj [(pk, .str pv)]]) raw d c
      = .ok (.arr ((la.zip lb).map
        (fun p => Json.obj [(sTrim p.1, Json.str (sTrim p.2))]))) ∧
    ((la.zip lb).map
      (fun p => Json.obj [(sTrim p.1, Json.str (sTrim p.2))])).length
      = min la.length lb.length := by
  refine ⟨paired_template_spec fuel pk pv raw d c la lb
    hpk1 hpk2 hpv1 hpv2 hka hvb hfuel, ?_⟩
  simp [List.length_zip]

/-- C7 witness: arrays of lengths 3 and 5 zip to exactly 3 pairs, with
trimming. -/
theorem claim_C7_witness :
    process_hierarchical_template 1 (.arr [.obj [("{A}", .str "{B}")]])
      [("A", .arr [.str " a1 ", .str "a2", .str "a3"]),
       ("B", .arr [.str "b1", .str " b2", .str "b3", .str "b4", .str "b5"])]
      emptyDoc fixedClock
      = .ok (.arr [.obj [("a1", .str "b1")], .obj [("a2", .str "b2")],
        .obj [("a3", .str "b3")]]) := by
  have h := (claim_C7 1 "{A}" "{B}"
    [("A", .arr [.str " a1 ", .str "a2", .str "a3"]),
     ("B", .arr [.str "b1", .str " b2", .str "b3", .str "b4", .str "b5"])]
    emptyDoc fixedClock [" a1 ", "a2", "a3"] ["b1", " b2", "b3", "b4", "b5"]
    rfl rfl rfl rfl rfl rfl (by decide)).1
  exact h.trans (by rfl)

/-- C8: month expansion projects the sub-template once per month and
keys the results by the leading month-name token in chronological order
(per `month_order`, unrecognized names last), regardless of the order of
the stored `months` array. -/
theorem claim_C8 (fuel : Nat) (sub : Json) (raw : RawDataStore)
    (d : HtmlDoc) (c : Clock) (ms : List Json)
    (hmr : mapGet raw "months" = some (.arr ms))
    (htok : ∀ m ∈ ms, (monthTok m).isSome = true)
    (hnodup : (ms.map monthKeyName).Nodup)
    (hsz : sizeOf (Json.obj [("{months}", sub)]) < fuel) :
    resultKeys (process_hierarchical_template fuel
        (.obj [("{months}", sub)]) raw d c)
      = some ((sortMonths ms).map monthKeyName) ∧
    ((sortMonths ms).map monthKeyName).Pairwise
      (fun a b => monthIdx a ≤ monthIdx b) :=
  months_template_spec fuel sub raw d c ms hmr htok hnodup hsz

/-- C8 witness: input order March before January still yields the key
order January, March. -/
theorem claim_C8_witness :
    resultKeys (process_hierarchical_template 10000
      (.obj [("{months}", .null)])
      [("months", .arr [.str "March 2025", .str "January 2025"])]
      emptyDoc fixedClock)
      = some ((sortMonths [.str "March 2025", .str "January 2025"]).map
          monthKeyName) ∧
    (sortMonths [Json.str "March 2025", Json.str "January 2025"]).map
      monthKeyName = ["January", "March"] := by
  have h := claim_C8 10000 .null
    [("months", .arr [.str "March 2025", .str "January 2025"])]
    emptyDoc fixedClock [.str "March 2025", .str "January 2025"]
    rfl (by decide) (by decide) (by decide)
  exact ⟨h.1, by rfl⟩

/-- C9: a template consisting solely of literal JSON — no
placeholder-shaped string anywhere, hence none of the special array
shapes either, and (as in any JSON text) no repeated object keys —
projects to itself, for every data store. -/
theorem claim_C9 (fuel : Nat) (t : Json) (raw : RawDataStore) (d : HtmlDoc)
    (c : Clock) (hlit : literal_template fuel t = true)
    (hsz : sizeOf t < fuel) :
    process_hierarchical_template fuel t raw d c = .ok t :=
  literal_roundtrip fuel t raw d c hlit hsz

/-- C9 witness: a literal template of nested objects, arrays and
scalars round-trips unchanged over a non-empty store. -/
theorem claim_C9_witness :
    process_hierarchical_template 10000
      (.obj [("a", .num 1), ("b", .arr [.str "x", .null, .bool true])])
      [("a", .str "zzz")] emptyDoc fixedClock
      = .ok (.obj [("a", .num 1), ("b", .arr [.str "x", .null, .bool true])]) :=
  claim_C9 10000
    (.obj [("a", .num 1), ("b", .arr [.str "x", .null, .bool true])])
    [("a", .str "zzz")] emptyDoc fixedClock (by decide) (by decide)

/-- C10: with a present but empty output sample, `process_html` reaches
`generate_structured_output`, whose unconditional `output_sample[0]`
indexing is out of bounds — the run panics (modelled `none`) instead of
returning a result or an error, for every configuration whose rule list
avoids the months special path (which could abort first). -/
theorem claim_C10 (fuel : Nat) (config : XPathConfig) (d : HtmlDoc)
    (c : Clock) (hsample : config.output_sample = some [])
    (hnm : ∀ r ∈ config.rules, ¬(r.name = "months" ∧ r.for_each_item.isSome)) :
    process_html fuel config d c = none := by
  unfold process_html
  rw [process_rules_isolated fuel d config.rules hnm [] [], hsample]
  rfl

/-- C10 witness: a concrete configuration with `output_sample = []`
panics. -/
theorem claim_C10_witness :
    process_html 1 emptySampleConfig emptyDoc fixedClock = none :=
  claim_C10 1 emptySampleConfig emptyDoc fixedClock rfl
    (fun r hr => absurd hr (List.not_mem_nil r))
